import Mathlib

/-!
# UI_lab: compacts (axis-aligned boxes) and their stepping iterator

A shallow embedding of `compact/src/ICompactImpl.cpp` (with the parts of
`vector/src/IVectorImpl.cpp` it calls) and the properties proved about it.

Modelling conventions.

* A `double` is an exact rational (`ℚ`): rounding error of the arithmetic is
  not modelled, and vectors never hold NaN (`IVector::createVector` rejects it).
* An `IVector` is the list of its coordinates; its dimension is the length.
  Pointers are never null and allocation never fails, so the `nullptr`
  branches of the source are not modelled.
* An `int` is a 32-bit integer. The conversion `double -> int` truncates toward
  zero; it is undefined in C++ when the truncated value is no `int`, and so are
  the overflow of an `int` subtraction, `std::abs(INT_MIN)`, the conversion of
  NaN and the conversion `double -> size_t` of a value outside `0 .. 2^64 - 1`.
  These operations answer `none`.
* A vector of `IVector::createVector` lives in one `new char[]` block with
  its coordinates behind the object, and `~VectorImpl` runs `delete [] coords`
  on that interior pointer: `delete currentClone` in `doStep` is undefined
  behaviour. A call of `doStep` or `setDirection` that meets undefined
  behaviour has the outcome `Outcome.undefined`, about which nothing is
  claimed; it is never modelled as a return.
* The logger only records messages, so `log(msg, code)` is the value `code`.
* An out-parameter `bool &result` is an argument (the value before the call)
  and a component of the returned pair (the value after it).
-/

namespace UILab

/-! ## Vectors -/

/-- An `IVector`: the coordinates, in axis order. -/
abbrev Vec := List ℚ

/-- Result codes of `RESULT_CODE` that the sources use. -/
inductive RESULT_CODE where
  | SUCCESS
  | OUT_OF_MEMORY
  | BAD_REFERENCE
  | WRONG_DIM
  | DIVISION_BY_ZERO
  | NAN_VALUE
  | FILE_ERROR
  | OUT_OF_BOUNDS
  | NOT_FOUND
  | WRONG_ARGUMENT
  | CALCULATION_ERROR
  | MULTIPLE_DEFINITION
  deriving DecidableEq

open RESULT_CODE

/-- The constant `TOLERANCE`, written `10E-6` in the source. -/
def TOLERANCE : ℚ := 1 / 100000

/-- Method `VectorImpl::getDim`. -/
def getDim (v : Vec) : Nat := v.length

/-- Method `VectorImpl::getCoord`. The source answers NaN for `index >= dim`; the reads
of `doStep`, which can be out of range, test the index first (`getCoordInt`,
`iterator.doStep`), and every other read below is in range, where the default
`0` is not used. -/
def getCoord (v : Vec) (index : Nat) : ℚ := v.getD index 0

/-- Method `VectorImpl::setCoord`: the vector after the call (unchanged for
`index >= dim`, where the source returns an error code that no caller reads). -/
def setCoord (v : Vec) (index : Nat) (value : ℚ) : Vec := v.set index value

/-- The least value of the 32-bit type `int`. -/
def INT_MIN : ℤ := -2147483648

/-- The greatest value of the 32-bit type `int`. -/
def INT_MAX : ℤ := 2147483647

/-- Whether an integer is a value of the type `int`. -/
def isInt (z : ℤ) : Bool := decide (INT_MIN ≤ z ∧ z ≤ INT_MAX)

/-- Truncation toward zero. -/
def truncate (x : ℚ) : ℤ := if 0 ≤ x then ⌊x⌋ else ⌈x⌉

/-- The conversion `double -> int`: truncation toward zero; `none` when the
truncated value is no `int`, where the conversion is undefined. -/
def toInt (x : ℚ) : Option ℤ :=
  if isInt (truncate x) then some (truncate x) else none

/-- The `int` subtraction `a - b`; `none` on overflow, which is undefined. -/
def intSub (a b : ℤ) : Option ℤ :=
  if isInt (a - b) then some (a - b) else none

/-- The function `std::abs` on `int`; `none` when the absolute value is no `int`
(the argument `INT_MIN`), which is undefined. -/
def intAbs (a : ℤ) : Option ℤ :=
  if isInt |a| then some |a| else none

/-- The assignment `intVariable = vector->getCoord(index)`: the coordinate
converted to `int`; `none` for `index >= dim`, where `getCoord` answers NaN,
whose conversion is undefined. -/
def getCoordInt (v : Vec) (index : Nat) : Option ℤ :=
  if index < getDim v then toInt (getCoord v index) else none

/-- The conversion `double -> size_t` of an integral value: `none` outside
`0 .. 2^64 - 1`, where the conversion is undefined. -/
def toSizeT (r : ℤ) : Option Nat :=
  if 0 ≤ r ∧ r < 2 ^ 64 then some r.toNat else none

/-- The function `std::round`: nearest integer, halves away from zero. -/
def cround (x : ℚ) : ℤ := if 0 ≤ x then ⌊x + 1 / 2⌋ else ⌈x - 1 / 2⌉

/-! ## Helpers of the anonymous namespace -/

/-- Function `Less(lesser, larger)`: equal dimensions and no axis with
`lesser[i] > larger[i]`. -/
def Less (lesser larger : Vec) : Bool :=
  if getDim lesser ≠ getDim larger then false
  else (List.range (getDim lesser)).all
    (fun i => !decide (getCoord lesser i > getCoord larger i))

/-- Function `CheckData(IVector const*, IVector const*)`. -/
def CheckData (first second : Vec) : Bool :=
  decide (getDim first = getDim second)

/-! ## CompactImpl -/

/-- The fields of `CompactImpl` (the logger apart). -/
structure CompactImpl where
  left : Vec
  right : Vec
  dim : Nat
  deriving DecidableEq

namespace CompactImpl

/-- The constructor `CompactImpl(left, right, logger)`. -/
def ctor (left right : Vec) : CompactImpl :=
  { left := left, right := right, dim := getDim left }

/-- Method `CompactImpl::getBegin`. -/
def getBegin (self : CompactImpl) : Vec := self.left

/-- Method `CompactImpl::getEnd`. -/
def getEnd (self : CompactImpl) : Vec := self.right

/-- Method `CompactImpl::getDim`. -/
def getDim (self : CompactImpl) : Nat := self.dim

/-- Method `CompactImpl::isContains(vec, result)`: the code returned and the value of
`result` after the call. -/
def isContains (self : CompactImpl) (vec : Vec) (result : Bool) : RESULT_CODE × Bool :=
  if UILab.getDim vec ≠ self.getDim then (WRONG_DIM, result)
  else (SUCCESS, Less self.left vec && Less vec self.right)

/-- Method `CompactImpl::clone`. -/
def clone (self : CompactImpl) : CompactImpl := ctor self.left self.right

end CompactImpl

/-- Factory `ICompact::createCompact(begin, end, logger)`; `none` is the null result. -/
def createCompact (begin end_ : Vec) : Option CompactImpl :=
  if !CheckData begin end_ then none
  else
    let begLessEnd := Less begin end_
    if begLessEnd then some (CompactImpl.ctor begin end_)
    else some (CompactImpl.ctor end_ begin)

/-! ## CompactImpl::iterator -/

/-- The fields of `CompactImpl::iterator` (the logger apart). -/
structure iterator where
  compact : CompactImpl
  step : Vec
  current : Vec
  dir : Vec
  indexes : List Nat
  isBegin : Bool
  deriving DecidableEq

/-- What a call of `doStep` or `setDirection` does: it returns `code` and
leaves the iterator `it` (`returned code it`); or it runs into undefined
behaviour, and nothing is claimed about it (`undefined`); or it returns
`SUCCESS` after it has stored NaN in the position, which a `Vec` cannot hold,
so that the iterator after the call is not represented (`storedNaN`). -/
inductive Outcome where
  | returned (code : RESULT_CODE) (it : iterator) : Outcome
  | undefined : Outcome
  | storedNaN : Outcome
  deriving DecidableEq

namespace Outcome

/-- The code the call returns, when it returns. -/
def code : Outcome → Option RESULT_CODE
  | returned code _ => some code
  | undefined => none
  | storedNaN => some SUCCESS

/-- The iterator the call leaves, when it returns one that is represented. -/
def state : Outcome → Option iterator
  | returned _ it => some it
  | undefined => none
  | storedNaN => none

end Outcome

namespace iterator

/-- The constructor `iterator(compact, step, logger, isBegin)`: `dir` and
`indexes` start as the identity. -/
def ctor (compact : CompactImpl) (step : Vec) (isBegin : Bool) : iterator :=
  { compact := compact.clone
    step := step
    current := if isBegin then compact.getBegin else compact.getEnd
    dir := List.map (fun i : Nat => (i : ℚ)) (List.range compact.getDim)
    indexes := List.range compact.getDim
    isBegin := isBegin }

/-- Method `iterator::getPoint`. -/
def getPoint (it : iterator) : Vec := it.current

/-- The key of axis `i` in `Order`: `static_cast<size_t>(std::round(dir[i]))`; `none`
when the rounded entry is negative or above `2^64 - 1`. -/
def dirKey (dir : Vec) (i : Nat) : Option Nat := toSizeT (cround (getCoord dir i))

/-- The comparator given to `std::sort` in `Order`, as a non-strict order on
the keys. -/
def keyLE (a b : Nat × Nat) : Prop := a.1 ≤ b.1

instance : DecidableRel keyLE := fun a b => inferInstanceAs (Decidable (a.1 ≤ b.1))

instance : IsTotal (Nat × Nat) keyLE := ⟨fun a b => le_total a.1 b.1⟩

instance : IsTrans (Nat × Nat) keyLE := ⟨fun _ _ _ h₁ h₂ => le_trans h₁ h₂⟩

/-- Method `iterator::Order`: pair every axis with its key, sort the pairs by key and
write the axes back into `indexes`; `none` when the conversion of some key is
undefined, or when `indexes` is shorter than `dir`, so that `indexes[i]` is
written past its end. `std::sort` is an insertion sort, which is what the
library runs on short ranges; on distinct keys every sort agrees. -/
def Order (it : iterator) : Option iterator :=
  let dim := getDim it.dir
  if dim ≤ it.indexes.length ∧ (List.range dim).all (fun i => (dirKey it.dir i).isSome) then
    let vectorWithIndx := (List.range dim).map (fun i => ((dirKey it.dir i).getD 0, i))
    let sorted := vectorWithIndx.insertionSort keyLE
    some { it with indexes := sorted.map Prod.snd ++ it.indexes.drop dim }
  else none

/-- Method `iterator::ValidationDirection(newDir, indx)`. It is called with
`indx < newDim`, so the unsigned `newDim - 1` does not wrap. -/
def ValidationDirection (it : iterator) (newDir : Vec) (indx : Nat) : Bool :=
  let newDim := getDim newDir
  let coord := getCoord it.dir indx
  if coord < 0 ∨ coord > ((newDim - 1 : Nat) : ℚ) then false
  else (List.range newDim).all
    (fun i => i == indx || !decide (|getCoord newDir indx - coord| < TOLERANCE))

/-- The second loop of `setDirection` after its first `n` iterations: whether
it is still running (no entry failed the integer test) and `dir` so far. -/
def copyDirection (newDir : Vec) : Nat → Vec → Bool × Vec
  | 0, dir => (true, dir)
  | n + 1, dir =>
    let r := copyDirection newDir n dir
    if !r.1 then r
    else
      let coord := getCoord newDir n
      if |coord - (cround coord : ℚ)| > TOLERANCE then (false, r.2)
      else (true, setCoord r.2 n (getCoord newDir n))

/-- Method `iterator::setDirection(newDir)`. -/
def setDirection (it : iterator) (newDir : Vec) : Outcome :=
  if getDim newDir ≠ it.compact.getDim then Outcome.returned WRONG_DIM it
  else
    let dim := getDim newDir
    if (List.range dim).any (fun i => !it.ValidationDirection newDir i) then
      Outcome.returned WRONG_ARGUMENT it
    else
      let r := copyDirection newDir it.compact.getDim it.dir
      if !r.1 then Outcome.returned WRONG_ARGUMENT { it with dir := r.2 }
      else
        match Order { it with dir := r.2 } with
        | some ordered => Outcome.returned SUCCESS ordered
        | none => Outcome.undefined

/-- The test of the scan loop of `doStep` on one axis: the boundary is
reached. `curValue`, `endValue` and `beginVal` are `int` variables; `none` when
a conversion, the subtraction or `std::abs` is undefined. -/
def reached (it : iterator) (axis : Nat) : Option Bool :=
  if it.isBegin then
    (getCoordInt it.current axis).bind fun curValue =>
    (getCoordInt it.compact.getEnd axis).bind fun endValue =>
    (intSub curValue endValue).bind fun difference =>
    (intAbs difference).bind fun distance =>
    some (decide ((distance : ℚ) < TOLERANCE))
  else
    (getCoordInt it.current axis).bind fun curValue =>
    (getCoordInt it.compact.getBegin axis).bind fun beginVal =>
    (intSub curValue beginVal).bind fun difference =>
    (intAbs difference).bind fun distance =>
    some (decide ((distance : ℚ) < TOLERANCE))

/-- The scan loop of `doStep` over the rest of `indexes`, entered with loop
counter `i`: the counter at which the loop stops; `none` when a test is
undefined. -/
def scan (it : iterator) : List Nat → Nat → Option Nat
  | [], i => some i
  | axis :: rest, i =>
    match it.reached axis with
    | none => none
    | some true => scan it rest (i + 1)
    | some false => some i

/-- The loop `current->setCoord(i, currentClone->getCoord(i))` of `doStep`
after its first `n` iterations. -/
def copyCoords (currentClone : Vec) : Nat → Vec → Vec
  | 0, current => current
  | n + 1, current =>
    setCoord (copyCoords currentClone n current) n (getCoord currentClone n)

/-- Method `iterator::doStep` (the `advance()` of the specification). Both
branches that return `OUT_OF_BOUNDS` in the source run `delete currentClone`
first, which is undefined behaviour. -/
def doStep (it : iterator) : Outcome :=
  let dim := it.compact.getDim
  match it.scan it.indexes 0 with
  | none => Outcome.undefined
  | some i =>
    -- `delete currentClone; return OUT_OF_BOUNDS`
    if i = it.indexes.length then Outcome.undefined
    else
      let curAxis := i
      let axis := it.indexes.getD curAxis 0
      match getCoordInt it.current axis with
      | none => Outcome.undefined
      | some curValue =>
        if getDim it.step ≤ axis then
          -- `step->getCoord` answers NaN, which `setCoord` writes into the clone
          if getDim it.current ≠ dim then Outcome.undefined else Outcome.storedNaN
        else
          let currentClone :=
            if it.isBegin then setCoord it.current axis ((curValue : ℚ) + getCoord it.step axis)
            else setCoord it.current axis ((curValue : ℚ) - getCoord it.step axis)
          let vecIsContains := (it.compact.isContains currentClone false).1
          -- `delete currentClone; return OUT_OF_BOUNDS`
          if vecIsContains ≠ SUCCESS then Outcome.undefined
          else
            Outcome.returned SUCCESS
              { it with current := copyCoords currentClone dim it.current }

end iterator

namespace CompactImpl

/-- Method `CompactImpl::begin(step)`: `new iterator(this, step, logger)`. -/
def begin (self : CompactImpl) (step : Vec) : iterator :=
  iterator.ctor self step true

/-- Method `CompactImpl::end(step)`: `new iterator(this, step, logger, true)`. -/
def end_ (self : CompactImpl) (step : Vec) : iterator :=
  iterator.ctor self step true

end CompactImpl

/-- The iterator after `n` calls of `doStep`, when every one of them returns. -/
def advance : Nat → iterator → Option iterator
  | 0, it => some it
  | n + 1, it => (advance n it).bind (fun s => (iterator.doStep s).state)

/-- The code returned by call number `n + 1` of `doStep`, when the calls
return. -/
def advanceCode (n : Nat) (it : iterator) : Option RESULT_CODE :=
  (advance n it).bind (fun s => (iterator.doStep s).code)

/-- The iterator states the program can be in: made by `begin` or `end` on a
compact from `createCompact`, then driven by calls of `doStep` and
`setDirection` that return. -/
inductive Reachable : iterator → Prop where
  | begin (A B : Vec) (C : CompactImpl) (step : Vec) :
      createCompact A B = some C → Reachable (C.begin step)
  | end_ (A B : Vec) (C : CompactImpl) (step : Vec) :
      createCompact A B = some C → Reachable (C.end_ step)
  | doStep (it next : iterator) (code : RESULT_CODE) :
      Reachable it → it.doStep = Outcome.returned code next → Reachable next
  | setDirection (it next : iterator) (newDir : Vec) (code : RESULT_CODE) :
      Reachable it → it.setDirection newDir = Outcome.returned code next → Reachable next

/-- The shape of every iterator the program can reach: the dimensions of the
corners, of the position and of the direction agree with the compact, and
`indexes` lists every axis once. -/
def iterator.WF (it : iterator) : Prop :=
  it.compact.getDim = getDim it.compact.getBegin ∧
    getDim it.compact.getEnd = it.compact.getDim ∧
    getDim it.current = it.compact.getDim ∧
    getDim it.dir = it.compact.getDim ∧
    it.indexes.Perm (List.range it.compact.getDim)

/-! ## Algebra of compacts -/

/-- Function `Min(first, second)`: the first vector when `Less first second`,
the second otherwise; the result is one of the two arguments. -/
def Min (first second : Vec) : Vec :=
  if Less first second then first else second

/-- Function `Max(first, second)`, which the source defines as
`Min(second, first)`. -/
def Max (first second : Vec) : Vec :=
  Min second first

/-- Function `CheckData(ICompact const*, ICompact const*)`. -/
def CheckDataCompact (first second : CompactImpl) : Bool :=
  decide (first.getDim = second.getDim)

namespace CompactImpl

/-- Method `CompactImpl::isSubSet(other, result)`: the code returned and the
value of `result` after the call. A failed `CheckData` is only logged. -/
def isSubSet (self other : CompactImpl) (_result : Bool) : RESULT_CODE × Bool :=
  let otherIsContains := false
  let otherIsContains := (self.isContains other.getBegin otherIsContains).2
  let otherIsContains :=
    if otherIsContains then (self.isContains other.getEnd otherIsContains).2
    else otherIsContains
  (SUCCESS, otherIsContains)

/-- Method `CompactImpl::isIntersects(other, result)`: the code returned and
the value of `result` after the call. A failed `CheckData` is only logged. -/
def isIntersects (self other : CompactImpl) (_result : Bool) : RESULT_CODE × Bool :=
  let l := Max self.left other.getBegin
  let r := Min self.right other.getEnd
  (SUCCESS, Less l r)

end CompactImpl

/-- Factory `ICompact::intersection(left, right, logger)`; `none` is the null
result. The local `in` is written by `isIntersects` before it is read. -/
def intersection (left right : CompactImpl) : Option CompactImpl :=
  if !CheckDataCompact left right then none
  else
    let r := left.isIntersects right false
    if r.1 ≠ SUCCESS then none
    else if r.2 then
      let newLeft := Max left.getBegin right.getBegin
      let newRight := Min left.getEnd right.getEnd
      createCompact newLeft newRight
    else none

/-- Function `CompactInCompact(left, right)`. -/
def CompactInCompact (left right : CompactImpl) : Bool :=
  Less left.getBegin right.getBegin && Less right.getEnd left.getEnd

/-- Function `CompactsIsConnected(left, right)`. -/
def CompactsIsConnected (left right : CompactImpl) : Bool :=
  Less left.getBegin right.getEnd || Less right.getBegin left.getEnd

/-- Method `VectorImpl::infNorm` after the first `n` iterations of its loop;
`res` starts as `coords[0]`. -/
def infNormLoop (coords : Vec) : Nat → ℚ
  | 0 => getCoord coords 0
  | n + 1 =>
    let res := infNormLoop coords n
    if |getCoord coords n| > res then |getCoord coords n| else res

/-- Method `VectorImpl::infNorm`, the value of `norm(NORM::NORM_INF)`. -/
def infNorm (coords : Vec) : ℚ := infNormLoop coords (getDim coords)

/-- Function `IVector::sub(pOperand1, pOperand2, logger)` on operands of equal
dimension: the vector of the differences. -/
def subCoords (pOperand1 pOperand2 : Vec) : Vec :=
  List.map (fun i : Nat => getCoord pOperand1 i - getCoord pOperand2 i)
    (List.range (getDim pOperand1))

/-- Function `IVector::sub(pOperand1, pOperand2, logger)`; `none` is the null
result, returned when the dimensions differ. -/
def sub (pOperand1 pOperand2 : Vec) : Option Vec :=
  if getDim pOperand1 ≠ getDim pOperand2 then none
  else some (subCoords pOperand1 pOperand2)

/-- The test of the loop of `CheckParallel` on axis `i`:
`std::abs(vector[i] / norm) > TOLERANCE`. A zero `norm` gives NaN in the
source and `0` here; the test is false either way. -/
def significant (vector : Vec) (i : Nat) : Bool :=
  decide (|getCoord vector i / infNorm vector| > TOLERANCE)

/-- The loop of `CheckParallel` after its first `n` iterations: `count` and
`indxAxis`. The loop runs while `count <= 1`. -/
def CheckParallelLoop (vector : Vec) : Nat → Nat × ℤ → Nat × ℤ
  | 0, st => st
  | n + 1, st =>
    let s := CheckParallelLoop vector n st
    if s.1 ≤ 1 then
      if significant vector n then (s.1 + 1, (n : ℤ)) else s
    else s

/-- Function `CheckParallel(vector, indxAxis)`: the answer and `indxAxis` after
the call; the argument is `indxAxis` before the call. -/
def CheckParallel (vector : Vec) (indxAxis : ℤ) : Bool × ℤ :=
  let s := CheckParallelLoop vector (getDim vector) (0, indxAxis)
  (decide (s.1 ≤ 1), s.2)

/-- Factory `ICompact::add(left, right, logger)`; `none` is the null result.
The locals `indxAxisBeg` and `indxAxisEnd` are not initialised in the source:
their values before `CheckParallel` are arguments here. A failed
`CompactsIsConnected` is only logged. A null `beg` is dereferenced in the
source; it does not occur for compacts of equal dimension. -/
def add (left right : CompactImpl) (indxAxisBeg indxAxisEnd : ℤ) : Option CompactImpl :=
  if !CheckDataCompact left right then none
  else if CompactInCompact left right then some left.clone
  else if CompactInCompact right left then some right.clone
  else
    match sub left.getBegin right.getBegin with
    | none => none
    | some beg =>
      let pb := CheckParallel beg indxAxisBeg
      if pb.1 then
        match sub left.getEnd right.getEnd with
        | none => none
        | some vend =>
          let pe := CheckParallel vend indxAxisEnd
          if pe.1 then
            if pb.2 = pe.2 then
              createCompact (Min left.getBegin right.getBegin) (Max left.getEnd right.getEnd)
            else none
          else none
      else none

/-- Factory `ICompact::makeConvex(left, right, logger)`; `none` is the null
result. A failed `CheckData` or a null logger is only logged. -/
def makeConvex (left right : CompactImpl) : Option CompactImpl :=
  createCompact (Min left.getBegin right.getBegin) (Max left.getEnd right.getEnd)

/-- The shape of every compact the factories build: both corners have the
dimension of the compact. -/
def CompactImpl.WF (C : CompactImpl) : Prop :=
  C.getDim = UILab.getDim C.getBegin ∧ UILab.getDim C.getEnd = C.getDim

/-- The invariant of a valid compact: well-shaped, and `low[i] <= high[i]` on
every axis. -/
def CompactImpl.Valid (C : CompactImpl) : Prop :=
  C.WF ∧ ∀ i < C.getDim, getCoord C.getBegin i ≤ getCoord C.getEnd i


/-! ## Norms and the point set -/

/-- The enumeration `IVector::NORM`. -/
inductive NORM where
  | NORM_1
  | NORM_2
  | NORM_INF
  deriving DecidableEq

/-- Method `VectorImpl::firstNorm` after the first `n` iterations of its loop. -/
def firstNormLoop (coords : Vec) : Nat → ℚ
  | 0 => 0
  | n + 1 => firstNormLoop coords n + |getCoord coords n|

/-- Method `VectorImpl::firstNorm`, the value of `norm(NORM::NORM_1)`. -/
def firstNorm (coords : Vec) : ℚ := firstNormLoop coords (getDim coords)

/-- The sum `res` of `VectorImpl::secondNorm` after the first `n` iterations of
its loop. -/
def secondNormLoop (coords : Vec) : Nat → ℚ
  | 0 => 0
  | n + 1 => secondNormLoop coords n + getCoord coords n * getCoord coords n

/-- The sum of squares of which `VectorImpl::secondNorm` returns the square
root. -/
def secondNormSquare (coords : Vec) : ℚ := secondNormLoop coords (getDim coords)

/-- The test `vector->norm(norm) < tolerance`. The value of `norm(NORM::NORM_2)`
is a square root, which is compared through its square: `sqrt(s) < t` holds
exactly when `0 < t` and `s < t * t`. -/
def normLess (norm : NORM) (vector : Vec) (tolerance : ℚ) : Bool :=
  match norm with
  | NORM.NORM_1 => decide (firstNorm vector < tolerance)
  | NORM.NORM_2 => decide (0 < tolerance ∧ secondNormSquare vector < tolerance * tolerance)
  | NORM.NORM_INF => decide (infNorm vector < tolerance)

/-- The field `vectors` of `SetImpl` (the logger apart). -/
structure SetImpl where
  vectors : List Vec
  deriving DecidableEq

namespace SetImpl

/-- Method `SetImpl::getDim`. -/
def getDim (self : SetImpl) : Nat :=
  match self.vectors with
  | [] => 0
  | v :: _ => UILab.getDim v

/-- Method `SetImpl::getSize`. -/
def getSize (self : SetImpl) : Nat := self.vectors.length

/-- The loop of `SetImpl::insert` over the stored vectors: whether it returns
`MULTIPLE_DEFINITION`. A null difference is skipped. -/
def insertLoop (pVector : Vec) (norm : NORM) (tolerance : ℚ) : List Vec → Bool
  | [] => false
  | vector :: rest =>
    match sub pVector vector with
    | none => insertLoop pVector norm tolerance rest
    | some differenceBetweenItems =>
      if normLess norm differenceBetweenItems tolerance then true
      else insertLoop pVector norm tolerance rest

/-- Method `SetImpl::insert(pVector, norm, tolerance)`: the code returned and
the set after the call. -/
def insert (self : SetImpl) (pVector : Vec) (norm : NORM) (tolerance : ℚ) :
    RESULT_CODE × SetImpl :=
  if !self.vectors.isEmpty && decide (UILab.getDim pVector ≠ self.getDim) then (WRONG_DIM, self)
  else if insertLoop pVector norm tolerance self.vectors then (MULTIPLE_DEFINITION, self)
  else (SUCCESS, { vectors := self.vectors ++ [pVector] })

end SetImpl

/-- The sets built from the empty set by calls of `insert` with one norm and
one tolerance. -/
inductive Built (norm : NORM) (tolerance : ℚ) : SetImpl → Prop where
  | empty : Built norm tolerance { vectors := [] }
  | insert (s : SetImpl) (pVector : Vec) :
      Built norm tolerance s → Built norm tolerance (s.insert pVector norm tolerance).2


/-- The test `norm(v - e) < tol` as the specification words it, with the norms
of §4.1 taken as mathematical functions of the coordinates: the sum of the
absolute differences (`NORM_1`), the square root of the sum of their squares
(`NORM_2`, a real number), the greatest absolute difference (`NORM_INF`). It is
compared with the test `normLess` that the code runs. -/
def withinTolerance (norm : NORM) (v e : Vec) (tol : ℚ) : Prop :=
  match norm with
  | NORM.NORM_1 => (∑ i in Finset.range (getDim v), |getCoord v i - getCoord e i|) < tol
  | NORM.NORM_2 =>
    Real.sqrt (((∑ i in Finset.range (getDim v), (getCoord v i - getCoord e i) ^ 2 : ℚ) : ℝ)) <
      (tol : ℝ)
  | NORM.NORM_INF =>
    ∃ m : ℚ, IsGreatest {x : ℚ | ∃ i < getDim v, x = |getCoord v i - getCoord e i|} m ∧ m < tol

/-! # Theorems -/

/-! ## Evaluation lemmas for the conversions -/

@[simp]
theorem truncate_intCast (z : ℤ) : truncate (z : ℚ) = z := by
  unfold truncate
  split <;> simp

@[simp]
theorem truncate_natCast (n : ℕ) : truncate (n : ℚ) = n := by
  simpa using truncate_intCast (n : ℤ)

@[simp]
theorem truncate_ofNat (n : ℕ) [n.AtLeastTwo] :
    truncate (no_index (OfNat.ofNat n : ℚ)) = OfNat.ofNat n := by
  simpa only [Nat.cast_ofNat] using truncate_natCast (OfNat.ofNat n)

@[simp]
theorem truncate_zero : truncate 0 = 0 := by
  simpa using truncate_natCast 0

@[simp]
theorem truncate_one : truncate 1 = 1 := by
  simpa using truncate_natCast 1

@[simp]
theorem cround_intCast (z : ℤ) : cround (z : ℚ) = z := by
  unfold cround
  split
  · rw [Int.floor_eq_iff]; constructor <;> norm_num
  · rw [Int.ceil_eq_iff]; constructor <;> norm_num

@[simp]
theorem cround_natCast (n : ℕ) : cround (n : ℚ) = n := by
  simpa using cround_intCast (n : ℤ)

@[simp]
theorem cround_ofNat (n : ℕ) [n.AtLeastTwo] :
    cround (no_index (OfNat.ofNat n : ℚ)) = OfNat.ofNat n := by
  simpa only [Nat.cast_ofNat] using cround_natCast (OfNat.ofNat n)

@[simp]
theorem cround_zero : cround 0 = 0 := by
  simpa using cround_natCast 0

@[simp]
theorem cround_one : cround 1 = 1 := by
  simpa using cround_natCast 1

@[simp]
theorem cround_neg (x : ℚ) : cround (-x) = -cround x := by
  unfold cround
  rcases lt_trichotomy x 0 with h | h | h
  · rw [if_pos (by linarith), if_neg (by linarith), ← Int.floor_neg]
    congr 1
    ring
  · subst h
    norm_num
  · rw [if_neg (by linarith), if_pos (by linarith), ← Int.ceil_neg]
    congr 1
    ring

@[simp]
theorem truncate_neg (x : ℚ) : truncate (-x) = -truncate x := by
  unfold truncate
  rcases lt_trichotomy x 0 with h | h | h
  · rw [if_pos (by linarith), if_neg (by linarith), Int.floor_neg]
  · subst h
    norm_num
  · rw [if_neg (by linarith), if_pos (by linarith), Int.ceil_neg]

/-! ## Less and createCompact -/

theorem Less_iff (a b : Vec) :
    Less a b = true ↔ a.length = b.length ∧ ∀ i < a.length, getCoord a i ≤ getCoord b i := by
  unfold Less getDim
  by_cases h : a.length = b.length
  · simp [h, List.all_eq_true, not_lt]
  · simp [h]

theorem Less_eq_false_iff (a b : Vec) (h : a.length = b.length) :
    Less a b = false ↔ ∃ i < a.length, getCoord b i < getCoord a i := by
  rw [← Bool.not_eq_true, Less_iff]
  constructor
  · intro hn
    by_contra hc
    push_neg at hc
    exact hn ⟨h, hc⟩
  · rintro ⟨i, hi, hlt⟩ ⟨_, hall⟩
    exact absurd (hall i hi) (not_le.mpr hlt)

theorem vec_ext (a b : Vec) (h : a.length = b.length)
    (hc : ∀ i < a.length, getCoord a i = getCoord b i) : a = b := by
  apply List.ext_getElem h
  intro i h₁ h₂
  have := hc i h₁
  simpa [getCoord, List.getD_eq_getElem, h₁, h₂] using this

theorem createCompact_of_Less (A B : Vec) (h : Less A B = true) :
    createCompact A B = some (CompactImpl.ctor A B) := by
  have hd : A.length = B.length := ((Less_iff A B).mp h).1
  simp [createCompact, CheckData, getDim, hd, h]

theorem createCompact_of_not_Less (A B : Vec) (hd : A.length = B.length)
    (h : Less A B = false) :
    createCompact A B = some (CompactImpl.ctor B A) := by
  simp [createCompact, CheckData, getDim, hd, h]

/-! ## Construction of compacts -/

/-- C9: for corners `A`, `B` of equal dimension one of which is component-wise
`<=` the other, `createCompact A B` and `createCompact B A` both succeed with
the same compact; on every axis its low corner is the lesser and its high
corner the greater of the two coordinates, so `low[i] <= high[i]`. -/
theorem createCompact_comparable (A B : Vec) (hdim : getDim A = getDim B)
    (hcmp : (∀ i < getDim A, getCoord A i ≤ getCoord B i) ∨
      (∀ i < getDim A, getCoord B i ≤ getCoord A i)) :
    ∃ C : CompactImpl, createCompact A B = some C ∧ createCompact B A = some C ∧
      C.getDim = getDim A ∧ getDim C.getBegin = getDim A ∧ getDim C.getEnd = getDim A ∧
      ∀ i < getDim A,
        getCoord C.getBegin i = min (getCoord A i) (getCoord B i) ∧
        getCoord C.getEnd i = max (getCoord A i) (getCoord B i) ∧
        getCoord C.getBegin i ≤ getCoord C.getEnd i := by
  unfold getDim at hdim hcmp
  by_cases hAB : Less A B = true
  · have hle := ((Less_iff A B).mp hAB).2
    by_cases hBA : Less B A = true
    · have hge := ((Less_iff B A).mp hBA).2
      have hEq : A = B :=
        vec_ext A B hdim (fun i hi => le_antisymm (hle i hi) (hge i (hdim ▸ hi)))
      subst hEq
      refine ⟨CompactImpl.ctor A A, createCompact_of_Less A A hAB,
        createCompact_of_Less A A hAB, rfl, rfl, rfl, ?_⟩
      intro i _
      simp [CompactImpl.ctor, CompactImpl.getBegin, CompactImpl.getEnd]
    · have hBA' : Less B A = false := by simpa using hBA
      refine ⟨CompactImpl.ctor A B, createCompact_of_Less A B hAB,
        createCompact_of_not_Less B A hdim.symm hBA', rfl, rfl, hdim.symm, ?_⟩
      intro i hi
      have := hle i hi
      simp [CompactImpl.ctor, CompactImpl.getBegin, CompactImpl.getEnd, this]
  · have hAB' : Less A B = false := by simpa using hAB
    have hge : ∀ i < A.length, getCoord B i ≤ getCoord A i := by
      rcases hcmp with h | h
      · exact absurd ((Less_iff A B).mpr ⟨hdim, h⟩) hAB
      · exact h
    have hBA : Less B A = true :=
      (Less_iff B A).mpr ⟨hdim.symm, fun i hi => hge i (hdim ▸ hi)⟩
    refine ⟨CompactImpl.ctor B A, createCompact_of_not_Less A B hdim hAB',
      createCompact_of_Less B A hBA, hdim.symm, hdim.symm, rfl, ?_⟩
    intro i hi
    have := hge i hi
    simp [CompactImpl.ctor, CompactImpl.getBegin, CompactImpl.getEnd, this]

theorem createCompact_comparable_witness :
    ∃ C : CompactImpl, createCompact [4, 5] [0, 1] = some C ∧
      createCompact [0, 1] [4, 5] = some C ∧
      C.getDim = getDim [4, 5] ∧ getDim C.getBegin = getDim [4, 5] ∧
      getDim C.getEnd = getDim [4, 5] ∧
      ∀ i < getDim [4, 5],
        getCoord C.getBegin i = min (getCoord [4, 5] i) (getCoord [0, 1] i) ∧
        getCoord C.getEnd i = max (getCoord [4, 5] i) (getCoord [0, 1] i) ∧
        getCoord C.getBegin i ≤ getCoord C.getEnd i :=
  createCompact_comparable [4, 5] [0, 1] rfl
    (Or.inr (by
      intro i hi
      have hi2 : i < 2 := hi
      interval_cases i <;> norm_num [getCoord]))

/-- C10: for corners `A`, `B` of equal dimension neither of which is
component-wise `<=` the other, `createCompact A B` still returns a compact; its
low corner is `B`, its high corner is `A`, and on some axis `low[i] > high[i]`. -/
theorem createCompact_incomparable (A B : Vec) (hdim : getDim A = getDim B)
    (hAB : ¬ ∀ i < getDim A, getCoord A i ≤ getCoord B i)
    (hBA : ¬ ∀ i < getDim A, getCoord B i ≤ getCoord A i) :
    ∃ C : CompactImpl, createCompact A B = some C ∧
      C.getBegin = B ∧ C.getEnd = A ∧
      ∃ i < C.getDim, getCoord C.getBegin i > getCoord C.getEnd i := by
  unfold getDim at hdim hAB hBA
  have h1 : Less A B = false := by
    rw [← Bool.not_eq_true, Less_iff]
    exact fun h => hAB h.2
  refine ⟨CompactImpl.ctor B A, createCompact_of_not_Less A B hdim h1, rfl, rfl, ?_⟩
  push_neg at hBA
  obtain ⟨i, hi, hlt⟩ := hBA
  exact ⟨i, by simpa [CompactImpl.ctor, CompactImpl.getDim, getDim, hdim] using hi, hlt⟩

theorem createCompact_incomparable_witness :
    ∃ C : CompactImpl, createCompact [0, 5] [4, 1] = some C ∧
      C.getBegin = [4, 1] ∧ C.getEnd = [0, 5] ∧
      ∃ i < C.getDim, getCoord C.getBegin i > getCoord C.getEnd i :=
  createCompact_incomparable [0, 5] [4, 1] rfl
    (fun h => absurd (h 1 (by decide)) (by norm_num [getCoord]))
    (fun h => absurd (h 0 (by decide)) (by norm_num [getCoord]))

/-! ## Stepping -/

theorem advance_zero (it : iterator) : advance 0 it = some it := rfl

theorem advance_succ (n : Nat) (it : iterator) :
    advance (n + 1) it = (advance n it).bind (fun s => (iterator.doStep s).state) := rfl

theorem advance_step (n : Nat) (it s next : iterator) (code : RESULT_CODE)
    (h : advance n it = some s) (hd : s.doStep = Outcome.returned code next) :
    advance (n + 1) it = some next ∧ advanceCode n it = some code := by
  unfold advanceCode
  rw [advance_succ, h]
  simp [hd, Outcome.state, Outcome.code]

/-- What a returning `doStep` did, read off the code. -/
theorem doStep_returned (it next : iterator) (code : RESULT_CODE)
    (h : it.doStep = Outcome.returned code next) :
    ∃ (i : Nat) (curValue : ℤ),
      it.scan it.indexes 0 = some i ∧ i ≠ it.indexes.length ∧
        getCoordInt it.current (it.indexes.getD i 0) = some curValue ∧
        it.indexes.getD i 0 < getDim it.step ∧
        code = SUCCESS ∧
        next =
          { it with
            current := (iterator.copyCoords
              (if it.isBegin then
                setCoord it.current (it.indexes.getD i 0)
                  ((curValue : ℚ) + getCoord it.step (it.indexes.getD i 0))
              else
                setCoord it.current (it.indexes.getD i 0)
                  ((curValue : ℚ) - getCoord it.step (it.indexes.getD i 0)))
              it.compact.getDim it.current) } := by
  unfold iterator.doStep at h
  dsimp only at h
  cases hs : it.scan it.indexes 0 with
  | none => rw [hs] at h; cases h
  | some i =>
    rw [hs] at h
    dsimp only at h
    by_cases hi : i = it.indexes.length
    · rw [if_pos hi] at h; cases h
    · rw [if_neg hi] at h
      cases hc : getCoordInt it.current (it.indexes.getD i 0) with
      | none => rw [hc] at h; cases h
      | some curValue =>
        rw [hc] at h
        dsimp only at h
        by_cases hstep : getDim it.step ≤ it.indexes.getD i 0
        · rw [if_pos hstep] at h
          by_cases hd : getDim it.current ≠ it.compact.getDim
          · rw [if_pos hd] at h; cases h
          · rw [if_neg hd] at h; cases h
        · rw [if_neg hstep] at h
          split_ifs at h with h1 h2 h3
          · cases h
            exact ⟨i, curValue, rfl, hi, hc, not_le.mp hstep, rfl, by simp [h1]⟩
          · cases h
            exact ⟨i, curValue, rfl, hi, hc, not_le.mp hstep, rfl, by simp [h1]⟩

/-- A step vector shorter than the compact: `step->getCoord` answers NaN on
the active axis, and `doStep` stores it in the position and returns success. -/
theorem doStep_short_step :
    ((CompactImpl.ctor [0] [10]).begin []).doStep = Outcome.storedNaN := by
  norm_num [CompactImpl.begin, iterator.ctor, CompactImpl.clone, CompactImpl.ctor,
    CompactImpl.getBegin, CompactImpl.getEnd, CompactImpl.getDim, List.range_succ,
    iterator.doStep, iterator.scan, iterator.reached, getDim, getCoord, TOLERANCE,
    getCoordInt, toInt, isInt, INT_MIN, INT_MAX, intSub, intAbs]

/-- The `int` arithmetic of the scan: on the compact `[-2000000000]`–`[2000000000]`
the subtraction `curValue - endValue` overflows, and on
`[-2147483648]`–`[0]` the difference is `INT_MIN`, which has no absolute value
in `int`; both are undefined, and so is the first `doStep`. -/
theorem doStep_int_overflow :
    intSub (-2000000000) 2000000000 = none ∧
      ((CompactImpl.ctor [-2000000000] [2000000000]).begin [1]).reached 0 = none ∧
      ((CompactImpl.ctor [-2000000000] [2000000000]).begin [1]).doStep = Outcome.undefined ∧
      intSub (-2147483648) 0 = some (-2147483648) ∧
      intAbs (-2147483648) = none ∧
      ((CompactImpl.ctor [-2147483648] [0]).begin [1]).reached 0 = none ∧
      ((CompactImpl.ctor [-2147483648] [0]).begin [1]).doStep = Outcome.undefined := by
  refine ⟨?_, ?_, ?_, ?_, ?_, ?_, ?_⟩ <;>
    norm_num [CompactImpl.begin, iterator.ctor, CompactImpl.clone, CompactImpl.ctor,
      CompactImpl.getBegin, CompactImpl.getEnd, CompactImpl.getDim, List.range_succ,
      iterator.doStep, iterator.scan, iterator.reached, getDim, getCoord, TOLERANCE,
      getCoordInt, toInt, isInt, INT_MIN, INT_MAX, intSub, intAbs]

/-- C7 (the code departs from it): `end(step)` builds its iterator with
`isBegin = true`, so it is the iterator of `begin(step)`: it starts at the low
corner and steps forward; on the compact `[0]`–`[10]` with step `[2]` it starts
at `[0]`, not at `[10]`, and its first `doStep` moves to `[2]`. -/
theorem end_eq_begin :
    (∀ (C : CompactImpl) (step : Vec),
        C.end_ step = C.begin step ∧ (C.begin step).getPoint = C.getBegin ∧
          (C.end_ step).getPoint = C.getBegin ∧ (C.end_ step).isBegin = true) ∧
      createCompact [0] [10] = some (CompactImpl.ctor [0] [10]) ∧
      ((CompactImpl.ctor [0] [10]).end_ [2]).getPoint = [0] ∧
      ((CompactImpl.ctor [0] [10]).end_ [2]).getPoint ≠ (CompactImpl.ctor [0] [10]).getEnd ∧
      (((CompactImpl.ctor [0] [10]).end_ [2]).doStep).code = some SUCCESS ∧
      (((CompactImpl.ctor [0] [10]).end_ [2]).doStep).state.map iterator.getPoint =
        some [2] := by
  refine ⟨fun C step => ⟨rfl, rfl, rfl, rfl⟩, by decide, rfl, by decide, ?_, ?_⟩ <;>
    norm_num [CompactImpl.end_, iterator.ctor, CompactImpl.clone, CompactImpl.ctor,
      CompactImpl.getBegin, CompactImpl.getEnd, CompactImpl.getDim, List.range_succ,
      iterator.doStep, iterator.scan, iterator.reached, getDim, getCoord, TOLERANCE,
      CompactImpl.isContains, setCoord, iterator.copyCoords, iterator.getPoint,
      getCoordInt, toInt, isInt, INT_MIN, INT_MAX, intSub, intAbs, Outcome.code,
      Outcome.state]

/-! ## Stepping along a line -/

theorem int_abs_lt_TOLERANCE (z : ℤ) : ((|z| : ℤ) : ℚ) < TOLERANCE ↔ z = 0 := by
  constructor
  · intro h
    by_contra hz
    have h1 : (1 : ℤ) ≤ |z| := Int.one_le_abs hz
    have h2 : (1 : ℚ) ≤ ((|z| : ℤ) : ℚ) := by exact_mod_cast h1
    unfold TOLERANCE at h
    linarith
  · rintro rfl
    norm_num [TOLERANCE]

/-- C2 (the code departs from it): on the compact `[0]`–`[10]` with step `[2]`
the positions are `0, 2, 4, 6, 8, 10` after five successful calls of `doStep`,
as the claim says; the sixth call finds the axis at its boundary and takes the
exhausted branch, which runs `delete currentClone` before its `return`: the
call is undefined behaviour and does not report out-of-bounds. The `int`
variables of the scan make the first call undefined on the compact
`[0]`–`[3000000000]`, whose high corner is no `int`. -/
theorem doStep_line_exhausted :
    createCompact [0] [10] = some (CompactImpl.ctor [0] [10]) ∧
      (List.range 6).map
          (fun n => (advance n ((CompactImpl.ctor [0] [10]).begin [2])).map iterator.getPoint) =
        [some [0], some [2], some [4], some [6], some [8], some [10]] ∧
      (List.range 5).map (fun n => advanceCode n ((CompactImpl.ctor [0] [10]).begin [2])) =
        [some SUCCESS, some SUCCESS, some SUCCESS, some SUCCESS, some SUCCESS] ∧
      (advance 5 ((CompactImpl.ctor [0] [10]).begin [2])).bind
          (fun s => s.scan s.indexes 0) = some 1 ∧
      (advance 5 ((CompactImpl.ctor [0] [10]).begin [2])).map
          (fun s => s.indexes.length) = some 1 ∧
      (advance 5 ((CompactImpl.ctor [0] [10]).begin [2])).map iterator.doStep =
        some Outcome.undefined ∧
      advanceCode 5 ((CompactImpl.ctor [0] [10]).begin [2]) = none ∧
      createCompact [0] [3000000000] = some (CompactImpl.ctor [0] [3000000000]) ∧
      toInt 3000000000 = none ∧
      ((CompactImpl.ctor [0] [3000000000]).begin [1000000000]).doStep = Outcome.undefined := by
  have d : ∀ c : ℕ, c < 10 → c % 2 = 0 →
      iterator.doStep (iterator.mk (CompactImpl.ctor [0] [10]) [2] [(c : ℚ)] [0] [0] true) =
        Outcome.returned SUCCESS
          (iterator.mk (CompactImpl.ctor [0] [10]) [2] [((c + 2 : ℕ) : ℚ)] [0] [0] true) := by
    intro c hc hc2
    interval_cases c <;> first
      | omega
      | norm_num [CompactImpl.ctor, CompactImpl.getBegin, CompactImpl.getEnd,
          CompactImpl.getDim, iterator.doStep, iterator.scan, iterator.reached, getDim,
          getCoord, TOLERANCE, CompactImpl.isContains, setCoord, iterator.copyCoords,
          getCoordInt, toInt, isInt, INT_MIN, INT_MAX, intSub, intAbs]
  have a0 : advance 0 ((CompactImpl.ctor [0] [10]).begin [2]) =
      some (iterator.mk (CompactImpl.ctor [0] [10]) [2] [((0 : ℕ) : ℚ)] [0] [0] true) := by
    norm_num [advance, CompactImpl.begin, iterator.ctor, CompactImpl.clone, CompactImpl.ctor,
      CompactImpl.getBegin, CompactImpl.getDim, List.range_succ, getDim]
  have s1 := advance_step 0 _ _ _ _ a0 (d 0 (by norm_num) (by norm_num))
  have s2 := advance_step 1 _ _ _ _ s1.1 (d 2 (by norm_num) (by norm_num))
  have s3 := advance_step 2 _ _ _ _ s2.1 (d 4 (by norm_num) (by norm_num))
  have s4 := advance_step 3 _ _ _ _ s3.1 (d 6 (by norm_num) (by norm_num))
  have s5 := advance_step 4 _ _ _ _ s4.1 (d 8 (by norm_num) (by norm_num))
  refine ⟨by decide, ?_, ?_, ?_, ?_, ?_, ?_, by decide, ?_, ?_⟩
  · simp only [List.range_succ, List.range_zero, List.nil_append, List.cons_append,
      List.map_cons, List.map_nil, a0, s1.1, s2.1, s3.1, s4.1, s5.1, Option.map_some',
      iterator.getPoint]
    norm_num
  · simp only [List.range_succ, List.range_zero, List.nil_append, List.cons_append,
      List.map_cons, List.map_nil, s1.2, s2.2, s3.2, s4.2, s5.2]
  · rw [s5.1]
    norm_num [iterator.scan, iterator.reached, getCoord, TOLERANCE, CompactImpl.ctor,
      CompactImpl.getEnd, getCoordInt, toInt, isInt, INT_MIN, INT_MAX, intSub, intAbs, getDim]
  · rw [s5.1]
    rfl
  · rw [s5.1]
    norm_num [iterator.doStep, iterator.scan, iterator.reached, getCoord, TOLERANCE,
      CompactImpl.ctor, CompactImpl.getEnd, getCoordInt, toInt, isInt, INT_MIN, INT_MAX,
      intSub, intAbs, getDim]
  · unfold advanceCode
    rw [s5.1]
    norm_num [iterator.doStep, iterator.scan, iterator.reached, getCoord, TOLERANCE,
      CompactImpl.ctor, CompactImpl.getEnd, getCoordInt, toInt, isInt, INT_MIN, INT_MAX,
      intSub, intAbs, getDim, Outcome.code]
  · norm_num [toInt, isInt, INT_MIN, INT_MAX]
  · norm_num [CompactImpl.begin, iterator.ctor, CompactImpl.clone, CompactImpl.ctor,
      CompactImpl.getBegin, CompactImpl.getEnd, CompactImpl.getDim, List.range_succ,
      iterator.doStep, iterator.scan, iterator.reached, getDim, getCoord, TOLERANCE,
      getCoordInt, toInt, isInt, INT_MIN, INT_MAX, intSub, intAbs]

/-! ## The scan loop and the copy loop of doStep -/

theorem length_copyCoords (src : Vec) (n : Nat) (cur : Vec) :
    (iterator.copyCoords src n cur).length = cur.length := by
  induction n with
  | zero => rfl
  | succ n ih => simp [iterator.copyCoords, setCoord, ih]

theorem getCoord_set (v : Vec) (i j : Nat) (x : ℚ) :
    getCoord (setCoord v i x) j = if i = j ∧ j < v.length then x else getCoord v j := by
  unfold getCoord setCoord
  rw [List.getD_eq_getElem?_getD, List.getD_eq_getElem?_getD, List.getElem?_set]
  by_cases h : i = j
  · subst h
    by_cases h2 : i < v.length
    · simp [h2]
    · have h3 : v[i]? = none := List.getElem?_eq_none (not_lt.mp h2)
      simp [h2, h3]
  · simp [h]

theorem getCoord_copyCoords (src : Vec) (n : Nat) (cur : Vec) (j : Nat) :
    getCoord (iterator.copyCoords src n cur) j =
      if j < n ∧ j < cur.length then getCoord src j else getCoord cur j := by
  induction n with
  | zero => simp [iterator.copyCoords]
  | succ n ih =>
    unfold iterator.copyCoords
    rw [getCoord_set, length_copyCoords, ih]
    by_cases h : n = j
    · subst h
      by_cases h2 : n < cur.length
      · simp [h2]
      · simp [h2]
    · have : (j < n + 1) ↔ (j < n) := by omega
      simp [h, this]

/-! ## What a successful step changes -/

theorem Reachable_advance (it : iterator) (h : Reachable it) (n : Nat) (s : iterator)
    (hs : advance n it = some s) : Reachable s := by
  induction n generalizing s with
  | zero =>
    simp only [advance, Option.some.injEq] at hs
    subst hs
    exact h
  | succ n ih =>
    rw [advance_succ] at hs
    cases hp : advance n it with
    | none => rw [hp] at hs; cases hs
    | some prev =>
      rw [hp] at hs
      simp only [Option.some_bind] at hs
      cases hd : prev.doStep with
      | returned code next =>
        rw [hd] at hs
        simp only [Outcome.state, Option.some.injEq] at hs
        subst hs
        exact Reachable.doStep prev next code (ih prev hp) hd
      | undefined => rw [hd] at hs; cases hs
      | storedNaN => rw [hd] at hs; cases hs

/-- C3 (the code departs from it): `doStep` reads the code returned by
`isContains` and never the answer `contains`, so a moved position outside the
compact is stored. On the compact `[0]`–`[10]` with step `[3]` the first four
calls succeed and visit `3, 6, 9, 12`; the reachable position `12` is not
contained in the compact. -/
theorem doStep_leaves_compact :
    createCompact [0] [10] = some (CompactImpl.ctor [0] [10]) ∧
      (List.range 5).map
          (fun n => (advance n ((CompactImpl.ctor [0] [10]).begin [3])).map iterator.getPoint) =
        [some [0], some [3], some [6], some [9], some [12]] ∧
      (List.range 4).map (fun n => advanceCode n ((CompactImpl.ctor [0] [10]).begin [3])) =
        [some SUCCESS, some SUCCESS, some SUCCESS, some SUCCESS] ∧
      ∃ s : iterator, advance 4 ((CompactImpl.ctor [0] [10]).begin [3]) = some s ∧
        Reachable s ∧ s.compact.isContains s.getPoint true = (SUCCESS, false) := by
  have hc : createCompact [0] [10] = some (CompactImpl.ctor [0] [10]) := by decide
  have d : ∀ c : ℕ, c < 10 → c % 3 = 0 →
      iterator.doStep (iterator.mk (CompactImpl.ctor [0] [10]) [3] [(c : ℚ)] [0] [0] true) =
        Outcome.returned SUCCESS
          (iterator.mk (CompactImpl.ctor [0] [10]) [3] [((c + 3 : ℕ) : ℚ)] [0] [0] true) := by
    intro c hc hc3
    interval_cases c <;> first
      | omega
      | norm_num [CompactImpl.ctor, CompactImpl.getBegin, CompactImpl.getEnd,
          CompactImpl.getDim, iterator.doStep, iterator.scan, iterator.reached, getDim,
          getCoord, TOLERANCE, CompactImpl.isContains, setCoord, iterator.copyCoords,
          getCoordInt, toInt, isInt, INT_MIN, INT_MAX, intSub, intAbs]
  have a0 : advance 0 ((CompactImpl.ctor [0] [10]).begin [3]) =
      some (iterator.mk (CompactImpl.ctor [0] [10]) [3] [((0 : ℕ) : ℚ)] [0] [0] true) := by
    norm_num [advance, CompactImpl.begin, iterator.ctor, CompactImpl.clone, CompactImpl.ctor,
      CompactImpl.getBegin, CompactImpl.getDim, List.range_succ, getDim]
  have s1 := advance_step 0 _ _ _ _ a0 (d 0 (by norm_num) (by norm_num))
  have s2 := advance_step 1 _ _ _ _ s1.1 (d 3 (by norm_num) (by norm_num))
  have s3 := advance_step 2 _ _ _ _ s2.1 (d 6 (by norm_num) (by norm_num))
  have s4 := advance_step 3 _ _ _ _ s3.1 (d 9 (by norm_num) (by norm_num))
  refine ⟨hc, ?_, ?_, _, s4.1,
    Reachable_advance _ (Reachable.begin [0] [10] _ [3] hc) 4 _ s4.1, ?_⟩
  · simp only [List.range_succ, List.range_zero, List.nil_append, List.cons_append,
      List.map_cons, List.map_nil, a0, s1.1, s2.1, s3.1, s4.1, Option.map_some',
      iterator.getPoint]
    norm_num
  · simp only [List.range_succ, List.range_zero, List.nil_append, List.cons_append,
      List.map_cons, List.map_nil, s1.2, s2.2, s3.2, s4.2]
  · norm_num [CompactImpl.ctor, CompactImpl.getDim, List.range_succ, getDim, getCoord,
      CompactImpl.isContains, iterator.getPoint, Less]

/-! ## Validation of a new direction -/

/-- C4 (the code departs from it): `ValidationDirection` compares
`newDir[indx]` with the stored `dir[indx]` and tests the range of the stored
entry, so vectors that are no permutation pass. On a fresh 3-dimensional
iterator `[1,0,0]` (two axes carry `0`) is accepted, and on a fresh
2-dimensional iterator `[2,0]` and `[5,5]` (entries above `dim - 1`) are. -/
theorem setDirection_accepts_non_permutation :
    createCompact [0, 0, 0] [4, 4, 4] = some (CompactImpl.ctor [0, 0, 0] [4, 4, 4]) ∧
      (((CompactImpl.ctor [0, 0, 0] [4, 4, 4]).begin [2, 2, 2]).setDirection [1, 0, 0]).code =
        some SUCCESS ∧
      createCompact [0, 0] [4, 4] = some (CompactImpl.ctor [0, 0] [4, 4]) ∧
      (((CompactImpl.ctor [0, 0] [4, 4]).begin [2, 2]).setDirection [2, 0]).code =
        some SUCCESS ∧
      (((CompactImpl.ctor [0, 0] [4, 4]).begin [2, 2]).setDirection [5, 5]).code =
        some SUCCESS := by
  refine ⟨by decide, ?_, by decide, ?_, ?_⟩ <;>
    norm_num [iterator.setDirection, iterator.ValidationDirection, iterator.copyDirection,
      iterator.Order, iterator.dirKey, CompactImpl.begin, iterator.ctor, CompactImpl.clone,
      CompactImpl.ctor, CompactImpl.getBegin, CompactImpl.getEnd, CompactImpl.getDim,
      List.range_succ, getDim, getCoord, setCoord, TOLERANCE, toSizeT, Outcome.code]

/-- C5 (the code departs from it): the same comparison with the stored `dir`
rejects a permutation that agrees with the stored direction on some axis. On a
fresh 2-dimensional iterator the permutation `[0,1]` returns wrong-argument;
`[1,0]` is accepted there, and returns wrong-argument when set a second time. -/
theorem setDirection_rejects_permutation :
    createCompact [0, 0] [4, 4] = some (CompactImpl.ctor [0, 0] [4, 4]) ∧
      (((CompactImpl.ctor [0, 0] [4, 4]).begin [2, 2]).setDirection [0, 1]).code =
        some WRONG_ARGUMENT ∧
      (((CompactImpl.ctor [0, 0] [4, 4]).begin [2, 2]).setDirection [1, 0]).code =
        some SUCCESS ∧
      (((CompactImpl.ctor [0, 0] [4, 4]).begin [2, 2]).setDirection [1, 0]).state.bind
          (fun s => (s.setDirection [1, 0]).code) = some WRONG_ARGUMENT := by
  refine ⟨by decide, ?_, ?_, ?_⟩ <;>
    norm_num [iterator.setDirection, iterator.ValidationDirection, iterator.copyDirection,
      iterator.Order, iterator.dirKey, CompactImpl.begin, iterator.ctor, CompactImpl.clone,
      CompactImpl.ctor, CompactImpl.getBegin, CompactImpl.getEnd, CompactImpl.getDim,
      List.range_succ, getDim, getCoord, setCoord, TOLERANCE, iterator.keyLE, toSizeT,
      Outcome.code, Outcome.state]
/-! ## Shape of the reachable iterators -/

theorem createCompact_shape (A B : Vec) (C : CompactImpl) (h : createCompact A B = some C) :
    C.getDim = getDim C.getBegin ∧ getDim C.getEnd = C.getDim := by
  unfold createCompact at h
  by_cases hd : CheckData A B = true
  · have hlen : A.length = B.length := by simpa [CheckData, getDim] using hd
    simp only [hd, Bool.not_true, Bool.false_eq_true, if_false] at h
    split_ifs at h <;> cases h <;>
      simp [CompactImpl.ctor, CompactImpl.getDim, CompactImpl.getBegin, CompactImpl.getEnd,
        getDim, hlen]
  · simp [hd] at h

theorem WF_ctor (C : CompactImpl) (step : Vec) (b : Bool)
    (h : C.getDim = getDim C.getBegin ∧ getDim C.getEnd = C.getDim) :
    (iterator.ctor C step b).WF := by
  obtain ⟨h1, h2⟩ := h
  simp only [CompactImpl.getDim, CompactImpl.getBegin, CompactImpl.getEnd, getDim] at h1 h2
  refine ⟨rfl, ?_, ?_, ?_, ?_⟩
  · show C.right.length = C.left.length
    omega
  · cases b
    · show C.right.length = C.left.length
      omega
    · rfl
  · show (List.map (fun i : Nat => (i : ℚ)) (List.range C.dim)).length = C.left.length
    rw [List.length_map, List.length_range]
    exact h1
  · show (List.range C.dim).Perm (List.range C.left.length)
    rw [h1]

theorem doStep_frame (it next : iterator) (code : RESULT_CODE)
    (h : it.doStep = Outcome.returned code next) :
    next.compact = it.compact ∧ next.step = it.step ∧ next.dir = it.dir ∧
      next.indexes = it.indexes ∧ next.isBegin = it.isBegin ∧
      next.current.length = it.current.length := by
  obtain ⟨_, _, _, _, _, _, _, hnext⟩ := doStep_returned it next code h
  rw [hnext]
  exact ⟨rfl, rfl, rfl, rfl, rfl, length_copyCoords _ _ _⟩

theorem WF_doStep (it next : iterator) (code : RESULT_CODE) (h : it.WF)
    (hd : it.doStep = Outcome.returned code next) : next.WF := by
  obtain ⟨h1, h2, h3, h4, h5⟩ := h
  obtain ⟨f1, _, f3, f4, _, f6⟩ := doStep_frame it next code hd
  unfold iterator.WF
  rw [f1, f3, f4]
  exact ⟨h1, h2, by simpa [getDim, f6] using h3, h4, h5⟩

theorem length_copyDirection (newDir : Vec) (n : Nat) (dir : Vec) :
    (iterator.copyDirection newDir n dir).2.length = dir.length := by
  induction n with
  | zero => rfl
  | succ n ih =>
    unfold iterator.copyDirection
    dsimp only
    split_ifs <;> simp [setCoord, ih]

theorem getCoord_copyDirection (newDir : Vec) (n : Nat) (dir : Vec)
    (h : (iterator.copyDirection newDir n dir).1 = true) (j : Nat) :
    getCoord (iterator.copyDirection newDir n dir).2 j =
      if j < n ∧ j < dir.length then getCoord newDir j else getCoord dir j := by
  induction n with
  | zero => simp [iterator.copyDirection]
  | succ n ih =>
    unfold iterator.copyDirection at h ⊢
    dsimp only at h ⊢
    by_cases hr : (iterator.copyDirection newDir n dir).1 = true
    · simp only [hr, Bool.not_true, Bool.false_eq_true, if_false] at h ⊢
      by_cases hbad : |getCoord newDir n - (cround (getCoord newDir n) : ℚ)| > TOLERANCE
      · rw [if_pos hbad] at h
        cases h
      · rw [if_neg hbad]
        simp only [getCoord_set, length_copyDirection, ih hr]
        by_cases hnj : n = j
        · subst hnj
          by_cases h2 : n < dir.length
          · simp [h2]
          · simp [h2]
        · have : (j < n + 1) ↔ (j < n) := by omega
          simp [hnj, this]
    · simp [hr] at h

theorem copyDirection_integer (newDir : Vec) (n : Nat) (dir : Vec)
    (h : (iterator.copyDirection newDir n dir).1 = true) :
    ∀ i < n, |getCoord newDir i - (cround (getCoord newDir i) : ℚ)| ≤ TOLERANCE := by
  induction n with
  | zero => intro i hi; omega
  | succ n ih =>
    unfold iterator.copyDirection at h
    dsimp only at h
    by_cases hr : (iterator.copyDirection newDir n dir).1 = true
    · simp only [hr, Bool.not_true, Bool.false_eq_true, if_false] at h
      by_cases hbad : |getCoord newDir n - (cround (getCoord newDir n) : ℚ)| > TOLERANCE
      · rw [if_pos hbad] at h
        cases h
      · intro i hi
        by_cases hin : i = n
        · subst hin
          exact not_lt.mp hbad
        · exact ih hr i (by omega)
    · simp [hr] at h

theorem Order_some (it ordered : iterator) (h : it.Order = some ordered) :
    getDim it.dir ≤ it.indexes.length ∧
    (∀ i < getDim it.dir, ∃ k : Nat, iterator.dirKey it.dir i = some k) ∧
      ordered.compact = it.compact ∧ ordered.current = it.current ∧ ordered.dir = it.dir ∧
      ordered.step = it.step ∧ ordered.isBegin = it.isBegin ∧
      ordered.indexes =
        (((List.range (getDim it.dir)).map
          (fun i => ((iterator.dirKey it.dir i).getD 0, i))).insertionSort
            iterator.keyLE).map Prod.snd ++ it.indexes.drop (getDim it.dir) := by
  unfold iterator.Order at h
  dsimp only at h
  split_ifs at h with hall
  cases h
  refine ⟨hall.1, ?_, rfl, rfl, rfl, rfl, rfl, rfl⟩
  intro i hi
  have := List.all_eq_true.mp hall.2 i (List.mem_range.mpr hi)
  exact Option.isSome_iff_exists.mp this

theorem Order_indexes_perm (it ordered : iterator) (h : it.Order = some ordered)
    (hlen : it.indexes.length = getDim it.dir) :
    ordered.indexes.Perm (List.range (getDim it.dir)) := by
  obtain ⟨_, _, _, _, _, _, _, hidx⟩ := Order_some it ordered h
  rw [hidx, ← hlen, List.drop_length, List.append_nil, hlen]
  have hp := (List.perm_insertionSort iterator.keyLE
    ((List.range (getDim it.dir)).map
      (fun i => ((iterator.dirKey it.dir i).getD 0, i)))).map Prod.snd
  refine hp.trans ?_
  rw [List.map_map]
  simp [Function.comp_def]

theorem Order_indexes_sorted (it ordered : iterator) (h : it.Order = some ordered)
    (hlen : it.indexes.length = getDim it.dir) :
    ordered.indexes.Pairwise
      (fun a b => (iterator.dirKey it.dir a).getD 0 ≤ (iterator.dirKey it.dir b).getD 0) := by
  obtain ⟨_, _, _, _, _, _, _, hidx⟩ := Order_some it ordered h
  rw [hidx, ← hlen, List.drop_length, List.append_nil, hlen, List.pairwise_map]
  have hs := List.sorted_insertionSort iterator.keyLE
    ((List.range (getDim it.dir)).map (fun i => ((iterator.dirKey it.dir i).getD 0, i)))
  refine List.Pairwise.imp_of_mem ?_ hs
  intro a b ha hb hab
  have hp := List.perm_insertionSort iterator.keyLE
    ((List.range (getDim it.dir)).map (fun i => ((iterator.dirKey it.dir i).getD 0, i)))
  have ha' := hp.mem_iff.mp ha
  have hb' := hp.mem_iff.mp hb
  simp only [List.mem_map, List.mem_range] at ha' hb'
  obtain ⟨i, _, rfl⟩ := ha'
  obtain ⟨j, _, rfl⟩ := hb'
  exact hab

theorem setDirection_success (it next : iterator) (newDir : Vec)
    (h : it.setDirection newDir = Outcome.returned SUCCESS next) :
    getDim newDir = it.compact.getDim ∧
      (iterator.copyDirection newDir it.compact.getDim it.dir).1 = true ∧
      iterator.Order
          { it with dir := (iterator.copyDirection newDir it.compact.getDim it.dir).2 } =
        some next := by
  unfold iterator.setDirection at h
  dsimp only at h
  by_cases h1 : getDim newDir ≠ it.compact.getDim
  · rw [if_pos h1] at h; cases h
  · rw [if_neg h1] at h
    by_cases h2 : (List.range (getDim newDir)).any
        (fun i => !it.ValidationDirection newDir i) = true
    · rw [if_pos h2] at h; cases h
    · rw [if_neg h2] at h
      by_cases h3 : (!(iterator.copyDirection newDir it.compact.getDim it.dir).1) = true
      · rw [if_pos h3] at h; cases h
      · rw [if_neg h3] at h
        cases ho : iterator.Order
            { it with dir := (iterator.copyDirection newDir it.compact.getDim it.dir).2 } with
        | none => rw [ho] at h; cases h
        | some ordered =>
          rw [ho] at h
          cases h
          exact ⟨not_not.mp h1, by simpa using h3, rfl⟩

theorem WF_setDirection (it next : iterator) (newDir : Vec) (code : RESULT_CODE) (h : it.WF)
    (hs : it.setDirection newDir = Outcome.returned code next) : next.WF := by
  obtain ⟨h1, h2, h3, h4, h5⟩ := h
  unfold iterator.setDirection at hs
  dsimp only at hs
  by_cases c1 : getDim newDir ≠ it.compact.getDim
  · rw [if_pos c1] at hs; cases hs
    exact ⟨h1, h2, h3, h4, h5⟩
  · rw [if_neg c1] at hs
    by_cases c2 : (List.range (getDim newDir)).any
        (fun i => !it.ValidationDirection newDir i) = true
    · rw [if_pos c2] at hs; cases hs
      exact ⟨h1, h2, h3, h4, h5⟩
    · rw [if_neg c2] at hs
      have hd : getDim (iterator.copyDirection newDir it.compact.getDim it.dir).2 =
          it.compact.getDim := by
        simpa [getDim, length_copyDirection] using h4
      by_cases c3 : (!(iterator.copyDirection newDir it.compact.getDim it.dir).1) = true
      · rw [if_pos c3] at hs; cases hs
        exact ⟨h1, h2, h3, hd, h5⟩
      · rw [if_neg c3] at hs
        cases ho : iterator.Order
            { it with dir := (iterator.copyDirection newDir it.compact.getDim it.dir).2 } with
        | none => rw [ho] at hs; cases hs
        | some ordered =>
          rw [ho] at hs
          cases hs
          have hlen : it.indexes.length = it.compact.getDim := by
            simpa using h5.length_eq
          obtain ⟨_, _, f1, f2, f3, _, _, _⟩ := Order_some _ _ ho
          have hperm := Order_indexes_perm _ _ ho (by simpa [hd] using hlen)
          unfold iterator.WF
          rw [f1, f2, f3]
          exact ⟨h1, h2, h3, hd, by simpa [hd] using hperm⟩

theorem Reachable_WF (it : iterator) (h : Reachable it) : it.WF := by
  induction h with
  | begin A B C step hc => exact WF_ctor C step true (createCompact_shape A B C hc)
  | end_ A B C step hc => exact WF_ctor C step true (createCompact_shape A B C hc)
  | doStep it next code _ hd ih => exact WF_doStep it next code ih hd
  | setDirection it next newDir code _ hs ih => exact WF_setDirection it next newDir code ih hs

/-! ## The order set by a new direction -/

theorem setDirection_success_dir (it next : iterator) (newDir : Vec) (hwf : it.WF)
    (h : it.setDirection newDir = Outcome.returned SUCCESS next) :
    next.dir = newDir := by
  obtain ⟨hd, hc, he⟩ := setDirection_success it next newDir h
  obtain ⟨_, _, _, h4, _⟩ := hwf
  obtain ⟨_, _, _, _, f3, _, _, _⟩ := Order_some _ _ he
  rw [f3]
  show (iterator.copyDirection newDir it.compact.getDim it.dir).2 = newDir
  unfold getDim at hd h4
  apply vec_ext
  · rw [length_copyDirection, h4, hd]
  · intro j hj
    rw [length_copyDirection] at hj
    rw [getCoord_copyDirection newDir _ it.dir hc j, if_pos ⟨by omega, hj⟩]

theorem setDirection_success_indexes (it next : iterator) (newDir : Vec) (hwf : it.WF)
    (h : it.setDirection newDir = Outcome.returned SUCCESS next) :
    (∀ i < it.compact.getDim, ∃ k : Nat, iterator.dirKey newDir i = some k) ∧
      next.indexes.Perm (List.range it.compact.getDim) ∧
      next.indexes.Pairwise
        (fun a b => (iterator.dirKey newDir a).getD 0 ≤ (iterator.dirKey newDir b).getD 0) := by
  have hdir := setDirection_success_dir it next newDir hwf h
  obtain ⟨hd, hc, he⟩ := setDirection_success it next newDir h
  obtain ⟨_, _, _, h4, h5⟩ := hwf
  obtain ⟨_, hkeys, _, _, f3, _, _, _⟩ := Order_some _ _ he
  rw [f3] at hdir
  have hdir' : (iterator.copyDirection newDir it.compact.getDim it.dir).2 = newDir := hdir
  have hlen : it.indexes.length = getDim newDir := by
    rw [hd]; simpa using h5.length_eq
  rw [hdir'] at he
  have hkeys' := (Order_some _ _ he).2.1
  refine ⟨?_, ?_, ?_⟩
  · intro i hi
    exact hkeys' i (by rw [← hd] at hi; exact hi)
  · have := Order_indexes_perm { it with dir := newDir } next he hlen
    rw [← hd]
    exact this
  · exact Order_indexes_sorted { it with dir := newDir } next he hlen

theorem dirKey_some (dir : Vec) (i k : Nat) (h : iterator.dirKey dir i = some k) :
    (k : ℤ) = cround (getCoord dir i) := by
  unfold iterator.dirKey toSizeT at h
  split_ifs at h with hr
  cases h
  exact Int.toNat_of_nonneg hr.1

theorem map_getD_range (σ : List Nat) :
    (List.range σ.length).map (fun a => σ.getD a 0) = σ := by
  apply List.ext_getElem
  · simp
  · intro i h1 h2
    simp [List.getD_eq_getElem, h2]

theorem getD_mem_of_lt (l : List Nat) (p : Nat) (hp : p < l.length) : l.getD p 0 ∈ l := by
  rw [List.getD_eq_getElem l 0 hp]
  exact List.getElem_mem hp

theorem getD_inj_of_nodup (σ : List Nat) (hnd : σ.Nodup) (a i : Nat) (ha : a < σ.length)
    (hi : i < σ.length) (h : σ.getD a 0 = σ.getD i 0) : a = i := by
  rw [List.getD_eq_getElem σ 0 ha, List.getD_eq_getElem σ 0 hi] at h
  exact (hnd.getElem_inj_iff).mp h

theorem getD_of_map_eq_range (l : List Nat) (f : Nat → Nat) (n p : Nat)
    (hmap : l.map f = List.range n) (hp : p < l.length) : f (l.getD p 0) = p := by
  have hlen : l.length = n := by
    have := congrArg List.length hmap
    simpa using this
  have h := congrArg (fun m => m.getD p 0) hmap
  simp only at h
  rw [List.getD_eq_getElem _ 0 (by simpa using hp),
    List.getD_eq_getElem _ 0 (by simpa [hlen] using hp)] at h
  rw [List.getD_eq_getElem l 0 hp]
  simpa using h

theorem order_of_permutation (σ idx : List Nat) (n : Nat)
    (hσ : σ.Perm (List.range n)) (hidx : idx.Perm (List.range n))
    (hs : idx.Pairwise (fun a b => σ.getD a 0 ≤ σ.getD b 0)) :
    ∀ i < n, idx.getD (σ.getD i 0) 0 = i := by
  have hσlen : σ.length = n := by simpa using hσ.length_eq
  have hidxlen : idx.length = n := by simpa using hidx.length_eq
  have hm : (List.range n).map (fun a => σ.getD a 0) = σ := by
    have := map_getD_range σ
    rwa [hσlen] at this
  have hmap : idx.map (fun a => σ.getD a 0) = List.range n := by
    apply List.eq_of_perm_of_sorted (r := (· ≤ ·))
    · have h1 := hidx.map (fun a => σ.getD a 0)
      rw [hm] at h1
      exact h1.trans hσ
    · exact List.pairwise_map.mpr hs
    · exact List.sorted_le_range n
  have hnd : σ.Nodup := hσ.nodup_iff.mpr (List.nodup_range n)
  intro i hi
  have hiσ : i < σ.length := by omega
  have hp : σ.getD i 0 < n := by
    simpa using hσ.mem_iff.mp (getD_mem_of_lt σ i hiσ)
  have hpidx : σ.getD i 0 < idx.length := by omega
  have ha : idx.getD (σ.getD i 0) 0 < n := by
    simpa using hidx.mem_iff.mp (getD_mem_of_lt idx _ hpidx)
  exact getD_inj_of_nodup σ hnd _ i (by omega) hiσ
    (getD_of_map_eq_range idx (fun a => σ.getD a 0) n _ hmap hpidx)

theorem getCoord_map_cast (σ : List Nat) (a : Nat) (ha : a < σ.length) :
    getCoord (σ.map (fun n : Nat => (n : ℚ))) a = ((σ.getD a 0 : Nat) : ℚ) := by
  unfold getCoord
  rw [List.getD_eq_getElem _ 0 (by simpa using ha), List.getD_eq_getElem σ 0 ha]
  simp

/-- Where `setDirection newDir` returns success on a reachable iterator, the
stored direction is `newDir`, every rounded entry is a `size_t`, and `indexes`
lists every axis once, ascending in the rounded entries (ascending in the
entries themselves when they are integers). When `newDir` is a permutation `σ`
of `0 .. dim-1`, `indexes[σ[i]] = i` for every axis `i`. -/
theorem setDirection_success_sorted (it next : iterator) (newDir : Vec) (hr : Reachable it)
    (h : it.setDirection newDir = Outcome.returned SUCCESS next) :
    next.dir = newDir ∧
      next.indexes.Perm (List.range it.compact.getDim) ∧
      (∀ i < it.compact.getDim, 0 ≤ cround (getCoord newDir i)) ∧
      next.indexes.Pairwise
        (fun a b => cround (getCoord newDir a) ≤ cround (getCoord newDir b)) ∧
      ((∀ i < it.compact.getDim, ∃ z : ℤ, getCoord newDir i = (z : ℚ)) →
        next.indexes.Pairwise (fun a b => getCoord newDir a ≤ getCoord newDir b)) ∧
      (∀ σ : List Nat, σ.Perm (List.range it.compact.getDim) →
        newDir = σ.map (fun n : Nat => (n : ℚ)) →
        ∀ i < it.compact.getDim, next.indexes.getD (σ.getD i 0) 0 = i) := by
  have hwf := Reachable_WF it hr
  have hdir := setDirection_success_dir it next newDir hwf h
  obtain ⟨hkeys, hperm, hsortedKey⟩ := setDirection_success_indexes it next newDir hwf h
  have hmem : ∀ a ∈ next.indexes, a < it.compact.getDim := by
    intro a ha
    simpa using hperm.mem_iff.mp ha
  have hsorted : next.indexes.Pairwise
      (fun a b => cround (getCoord newDir a) ≤ cround (getCoord newDir b)) := by
    refine List.Pairwise.imp_of_mem ?_ hsortedKey
    intro a b ha hb hab
    obtain ⟨ka, hka⟩ := hkeys a (hmem a ha)
    obtain ⟨kb, hkb⟩ := hkeys b (hmem b hb)
    rw [hka, hkb] at hab
    simp only [Option.getD_some] at hab
    rw [← dirKey_some newDir a ka hka, ← dirKey_some newDir b kb hkb]
    exact_mod_cast hab
  refine ⟨hdir, hperm, ?_, hsorted, ?_, ?_⟩
  · intro i hi
    obtain ⟨k, hk⟩ := hkeys i hi
    rw [← dirKey_some newDir i k hk]
    exact Int.natCast_nonneg k
  · intro hint
    refine List.Pairwise.imp_of_mem ?_ hsorted
    intro a b ha hb hab
    obtain ⟨za, hza⟩ := hint a (hmem a ha)
    obtain ⟨zb, hzb⟩ := hint b (hmem b hb)
    rw [hza, hzb, cround_intCast, cround_intCast] at hab
    rw [hza, hzb]
    exact_mod_cast hab
  · intro σ hσ hnew
    have hσlen : σ.length = it.compact.getDim := by simpa using hσ.length_eq
    apply order_of_permutation σ _ _ hσ hperm
    refine List.Pairwise.imp_of_mem ?_ hsorted
    intro a b ha hb hab
    rw [hnew, getCoord_map_cast σ a (by rw [hσlen]; exact hmem a ha),
      getCoord_map_cast σ b (by rw [hσlen]; exact hmem b hb), cround_natCast,
      cround_natCast] at hab
    exact_mod_cast hab

/-! ## Directions that are no permutation -/

theorem cround_near_two_above : cround (2000001 / 1000000 : ℚ) = 2 := by
  unfold cround
  rw [if_pos (by norm_num), Int.floor_eq_iff]
  constructor <;> norm_num

theorem cround_near_two_below : cround (1999999 / 1000000 : ℚ) = 2 := by
  unfold cround
  rw [if_pos (by norm_num), Int.floor_eq_iff]
  constructor <;> norm_num

/-- C6 (the code departs from it): the validation of `setDirection` lets
entries through that are no axis numbers (the defect of C4), and `Order` sorts
the axes by `static_cast<size_t>(std::round(dir[i]))`, not by the direction
value. On a fresh 2-dimensional iterator `[-1, 5]` passes both loops of
`setDirection` and is stored; `Order` then converts `-1` to `size_t`, which is
undefined: the call is no successful return with the order `[0,1]` of the
ascending direction values (where the conversion wraps modulo `2^64` the key of
axis 0 is above the key `5` of axis 1, which orders the axes `[1,0]`). The
vector `[2000001/1000000, 1999999/1000000]` is accepted as well: both keys are
`2`, the call returns success with the order `[0,1]`, and the direction values
descend along it. -/
theorem setDirection_order_not_by_value :
    createCompact [0, 0] [4, 4] = some (CompactImpl.ctor [0, 0] [4, 4]) ∧
      ((CompactImpl.ctor [0, 0] [4, 4]).begin [2, 2]).ValidationDirection [-1, 5] 0 = true ∧
      ((CompactImpl.ctor [0, 0] [4, 4]).begin [2, 2]).ValidationDirection [-1, 5] 1 = true ∧
      iterator.copyDirection [-1, 5] 2 ((CompactImpl.ctor [0, 0] [4, 4]).begin [2, 2]).dir =
        (true, [-1, 5]) ∧
      cround (getCoord [-1, 5] 0) = -1 ∧
      iterator.dirKey [-1, 5] 0 = none ∧
      ((CompactImpl.ctor [0, 0] [4, 4]).begin [2, 2]).setDirection [-1, 5] =
        Outcome.undefined ∧
      cround (getCoord [-1, 5] 1) < cround (getCoord [-1, 5] 0) % 2 ^ 64 ∧
      ((CompactImpl.ctor [0, 0] [4, 4]).begin [2, 2]).setDirection
          [2000001 / 1000000, 1999999 / 1000000] =
        Outcome.returned SUCCESS
          (iterator.mk (CompactImpl.ctor [0, 0] [4, 4]) [2, 2] [0, 0]
            [2000001 / 1000000, 1999999 / 1000000] [0, 1] true) ∧
      getCoord [2000001 / 1000000, 1999999 / 1000000] 1 <
        getCoord [2000001 / 1000000, 1999999 / 1000000] 0 := by
  have ha := cround_near_two_above
  have hb := cround_near_two_below
  refine ⟨by decide, ?_, ?_, ?_, ?_, ?_, ?_, ?_, ?_, ?_⟩ <;>
    norm_num [iterator.setDirection, iterator.ValidationDirection, iterator.copyDirection,
      iterator.Order, iterator.dirKey, CompactImpl.begin, iterator.ctor, CompactImpl.clone,
      CompactImpl.ctor, CompactImpl.getBegin, CompactImpl.getEnd, CompactImpl.getDim,
      List.range_succ, getDim, getCoord, setCoord, TOLERANCE, iterator.keyLE, toSizeT, ha, hb,
      abs_div, abs_neg, Nat.abs_ofNat, abs_one]

/-! ## Containment -/

theorem Less_refl (a : Vec) : Less a a = true :=
  (Less_iff a a).mpr ⟨rfl, fun _ _ => le_refl _⟩

theorem createCompact_WF (A B : Vec) (C : CompactImpl) (h : createCompact A B = some C) :
    C.WF :=
  createCompact_shape A B C h

/-- C11: for a compact `C` and a point `p` of the dimension of `C`,
`isContains` returns success and its result is true exactly when
`low[i] <= p[i] <= high[i]` on every axis; for a point of another dimension it
returns the dimension-mismatch code and leaves the result as it was. -/
theorem isContains_spec (C : CompactImpl) (hC : C.WF) (p : Vec) (result : Bool) :
    (getDim p = C.getDim →
        (C.isContains p result).1 = SUCCESS ∧
          ((C.isContains p result).2 = true ↔
            ∀ i < C.getDim,
              getCoord C.getBegin i ≤ getCoord p i ∧ getCoord p i ≤ getCoord C.getEnd i)) ∧
      (getDim p ≠ C.getDim → C.isContains p result = (WRONG_DIM, result)) := by
  obtain ⟨h1, h2⟩ := hC
  simp only [CompactImpl.getDim, CompactImpl.getBegin, CompactImpl.getEnd, getDim] at h1 h2
  constructor
  · intro hp
    simp only [CompactImpl.getDim, getDim] at hp
    unfold CompactImpl.isContains
    simp only [CompactImpl.getDim, CompactImpl.getBegin, CompactImpl.getEnd, getDim, hp, ne_eq,
      not_true_eq_false, if_false, Bool.and_eq_true, Less_iff, true_and]
    constructor
    · rintro ⟨⟨_, ha⟩, ⟨_, hb⟩⟩ i hi
      exact ⟨ha i (by omega), hb i (by omega)⟩
    · intro h
      exact ⟨⟨by omega, fun i hi => (h i (by omega)).1⟩,
        ⟨by omega, fun i hi => (h i (by omega)).2⟩⟩
  · intro hp
    unfold CompactImpl.isContains
    rw [if_pos hp]

/-- C11, an instance: on the compact `[0,0]`–`[4,4]` the 2-dimensional point
`[1,5]` gives success, and the 1-dimensional point `[1]` the
dimension-mismatch code with the result untouched. -/
theorem isContains_spec_witness :
    (CompactImpl.ctor [0, 0] [4, 4]).WF ∧
      ((CompactImpl.ctor [0, 0] [4, 4]).isContains [1, 5] true).1 = SUCCESS ∧
      (CompactImpl.ctor [0, 0] [4, 4]).isContains [1] true = (WRONG_DIM, true) :=
  have hwf : (CompactImpl.ctor [0, 0] [4, 4]).WF := ⟨rfl, rfl⟩
  ⟨hwf, ((isContains_spec _ hwf [1, 5] true).1 rfl).1,
    (isContains_spec _ hwf [1] true).2 (by decide)⟩
/-! ## Min and Max -/

theorem Min_eq_or (a b : Vec) : Min a b = a ∨ Min a b = b := by
  unfold Min
  split_ifs
  · exact Or.inl rfl
  · exact Or.inr rfl

theorem Max_eq_or (a b : Vec) : Max a b = a ∨ Max a b = b :=
  (Min_eq_or b a).symm

theorem getDim_Min (a b : Vec) (h : getDim a = getDim b) : getDim (Min a b) = getDim a := by
  rcases Min_eq_or a b with e | e <;> rw [e]
  exact h.symm

theorem getDim_Max (a b : Vec) (h : getDim a = getDim b) : getDim (Max a b) = getDim a := by
  rcases Max_eq_or a b with e | e <;> rw [e]
  exact h.symm

theorem Less_antisymm (a b : Vec) (h1 : Less a b = true) (h2 : Less b a = true) : a = b := by
  obtain ⟨hl, ha⟩ := (Less_iff a b).mp h1
  obtain ⟨_, hb⟩ := (Less_iff b a).mp h2
  exact vec_ext a b hl (fun i hi => le_antisymm (ha i hi) (hb i (hl ▸ hi)))

theorem Min_comm (a b : Vec) (h : Less a b = true ∨ Less b a = true) : Min a b = Min b a := by
  unfold Min
  by_cases h1 : Less a b = true
  · by_cases h2 : Less b a = true
    · rw [if_pos h1, if_pos h2]
      exact Less_antisymm a b h1 h2
    · rw [if_pos h1, if_neg h2]
  · have h2 : Less b a = true := h.resolve_left h1
    rw [if_neg h1, if_pos h2]

theorem Max_comm (a b : Vec) (h : Less a b = true ∨ Less b a = true) : Max a b = Max b a :=
  Min_comm b a h.symm

theorem getCoord_Min (a b : Vec) (h : Less a b = true ∨ Less b a = true) (i : Nat)
    (hi : i < getDim a) : getCoord (Min a b) i = min (getCoord a i) (getCoord b i) := by
  unfold getDim at hi
  unfold Min
  by_cases h1 : Less a b = true
  · rw [if_pos h1]
    exact (min_eq_left (((Less_iff a b).mp h1).2 i hi)).symm
  · have h2 : Less b a = true := h.resolve_left h1
    rw [if_neg h1]
    obtain ⟨hl, hb⟩ := (Less_iff b a).mp h2
    exact (min_eq_right (hb i (hl ▸ hi))).symm

theorem comparable_iff (a b : Vec) (hd : getDim a = getDim b) :
    (Less a b = true ∨ Less b a = true) ↔
      ((∀ i < getDim a, getCoord a i ≤ getCoord b i) ∨
        (∀ i < getDim a, getCoord b i ≤ getCoord a i)) := by
  unfold getDim at hd ⊢
  rw [Less_iff, Less_iff]
  constructor
  · rintro (⟨_, h⟩ | ⟨_, h⟩)
    · exact Or.inl h
    · exact Or.inr (fun i hi => h i (hd ▸ hi))
  · rintro (h | h)
    · exact Or.inl ⟨hd, h⟩
    · exact Or.inr ⟨hd.symm, fun i hi => h i (hd ▸ hi)⟩

/-! ## Intersection test -/

theorem isIntersects_eq (A B : CompactImpl) (result : Bool) :
    A.isIntersects B result =
      (SUCCESS, Less (Max A.getBegin B.getBegin) (Min A.getEnd B.getEnd)) := rfl

/-- C12, the counterexample: the boxes `[0,0]`–`[2,2]` and `[2,0]`–`[4,2]` only
touch on a face (on axis 0 the greater low equals the lesser high), and
`isIntersects` reports true. -/
theorem isIntersects_touching :
    createCompact [0, 0] [2, 2] = some (CompactImpl.ctor [0, 0] [2, 2]) ∧
      createCompact [2, 0] [4, 2] = some (CompactImpl.ctor [2, 0] [4, 2]) ∧
      (CompactImpl.ctor [0, 0] [2, 2]).isIntersects (CompactImpl.ctor [2, 0] [4, 2]) false =
        (SUCCESS, true) ∧
      ¬ (∀ i < 2,
        max (getCoord (CompactImpl.ctor [0, 0] [2, 2]).getBegin i)
            (getCoord (CompactImpl.ctor [2, 0] [4, 2]).getBegin i) <
          min (getCoord (CompactImpl.ctor [0, 0] [2, 2]).getEnd i)
            (getCoord (CompactImpl.ctor [2, 0] [4, 2]).getEnd i)) := by
  refine ⟨by decide, by decide, by decide, ?_⟩
  intro h
  have := h 0 (by decide)
  norm_num [CompactImpl.ctor, CompactImpl.getBegin, CompactImpl.getEnd, getCoord] at this

/-- C12 as amended: for well-shaped compacts `A`, `B` of equal dimension
`isIntersects` returns success, and reports true exactly when `l[i] <= r[i]`,
not strictly, on every axis, where `l` is the corner `Max` returns for the two
low corners and `r` the corner `Min` returns for the two high corners; `r` is
the component-wise minimum when the high corners are comparable. The boxes
`[0,0]`–`[2,2]` and `[2,0]`–`[4,2]`, which only touch on a face, report true. -/
theorem isIntersects_spec (A B : CompactImpl) (hA : A.WF) (hB : B.WF)
    (hdim : A.getDim = B.getDim) (result : Bool) :
    (A.isIntersects B result).1 = SUCCESS ∧
      ((A.isIntersects B result).2 = true ↔
        ∀ i < A.getDim,
          getCoord (Max A.getBegin B.getBegin) i ≤ getCoord (Min A.getEnd B.getEnd) i) ∧
      (((∀ i < A.getDim, getCoord A.getEnd i ≤ getCoord B.getEnd i) ∨
          (∀ i < A.getDim, getCoord B.getEnd i ≤ getCoord A.getEnd i)) →
        ∀ i < A.getDim,
          getCoord (Min A.getEnd B.getEnd) i = min (getCoord A.getEnd i) (getCoord B.getEnd i)) ∧
      (CompactImpl.ctor [0, 0] [2, 2]).isIntersects (CompactImpl.ctor [2, 0] [4, 2]) false =
        (SUCCESS, true) := by
  obtain ⟨a1, a2⟩ := hA
  obtain ⟨b1, b2⟩ := hB
  have hlow : getDim A.getBegin = getDim B.getBegin := by omega
  have hhigh : getDim A.getEnd = getDim B.getEnd := by omega
  have hl : getDim (Max A.getBegin B.getBegin) = A.getDim := by
    rw [getDim_Max _ _ hlow]; omega
  have hr : getDim (Min A.getEnd B.getEnd) = A.getDim := by
    rw [getDim_Min _ _ hhigh]; omega
  refine ⟨rfl, ?_, ?_, by decide⟩
  · rw [isIntersects_eq]
    simp only [Less_iff]
    unfold getDim at hl hr
    rw [hl, hr]
    simp
  · intro hc i hi
    rw [← a2] at hc hi
    exact getCoord_Min _ _ ((comparable_iff _ _ hhigh).mpr hc) i hi

theorem isIntersects_spec_witness :
    (CompactImpl.ctor [0, 0] [4, 4]).WF ∧ (CompactImpl.ctor [1, 1] [2, 2]).WF ∧
      ((CompactImpl.ctor [0, 0] [4, 4]).isIntersects (CompactImpl.ctor [1, 1] [2, 2]) false).1 =
        SUCCESS :=
  ⟨⟨rfl, rfl⟩, ⟨rfl, rfl⟩,
    (isIntersects_spec (CompactImpl.ctor [0, 0] [4, 4]) (CompactImpl.ctor [1, 1] [2, 2])
      ⟨rfl, rfl⟩ ⟨rfl, rfl⟩ rfl false).1⟩
/-! ## Intersection -/

theorem intersection_eq (A B : CompactImpl) (hdim : A.getDim = B.getDim) :
    intersection A B =
      if Less (Max A.getBegin B.getBegin) (Min A.getEnd B.getEnd) = true then
        some (CompactImpl.ctor (Max A.getBegin B.getBegin) (Min A.getEnd B.getEnd))
      else none := by
  unfold intersection
  simp only [CheckDataCompact, hdim, decide_True, Bool.not_true, Bool.false_eq_true, if_false,
    isIntersects_eq, ne_eq, not_true_eq_false]
  by_cases h : Less (Max A.getBegin B.getBegin) (Min A.getEnd B.getEnd) = true
  · rw [if_pos h, if_pos h]
    exact createCompact_of_Less _ _ h
  · rw [if_neg h, if_neg h]

/-- C13, the counterexample: for `[0,0]`–`[2,3]` and `[0,0]`–`[3,2]`
`isIntersects` reports true and `intersection` returns `[0,0]`–`[3,2]`; on
axis 0 its high corner is `3`, not the lesser high coordinate `2`. -/
theorem intersection_not_componentwise :
    createCompact [0, 0] [2, 3] = some (CompactImpl.ctor [0, 0] [2, 3]) ∧
      createCompact [0, 0] [3, 2] = some (CompactImpl.ctor [0, 0] [3, 2]) ∧
      ((CompactImpl.ctor [0, 0] [2, 3]).isIntersects (CompactImpl.ctor [0, 0] [3, 2]) false).2 =
        true ∧
      intersection (CompactImpl.ctor [0, 0] [2, 3]) (CompactImpl.ctor [0, 0] [3, 2]) =
        some (CompactImpl.ctor [0, 0] [3, 2]) ∧
      getCoord (CompactImpl.ctor [0, 0] [3, 2]).getEnd 0 ≠
        min (getCoord (CompactImpl.ctor [0, 0] [2, 3]).getEnd 0)
          (getCoord (CompactImpl.ctor [0, 0] [3, 2]).getEnd 0) := by
  refine ⟨by decide, by decide, by decide, by decide, ?_⟩
  norm_num [CompactImpl.ctor, CompactImpl.getEnd, getCoord]

/-- C13 as amended: for well-shaped compacts `A`, `B` of equal dimension, when
`isIntersects` reports true `intersection` returns the compact whose low corner
is the corner `Max` returns for the two low corners and whose high corner is
the corner `Min` returns for the two high corners, which is their
component-wise minimum when the high corners are comparable; when
`isIntersects` reports false `intersection` returns the null result. -/
theorem intersection_spec (A B : CompactImpl) (hA : A.WF) (hB : B.WF)
    (hdim : A.getDim = B.getDim) (result : Bool) :
    ((A.isIntersects B result).2 = true →
        ∃ R : CompactImpl, intersection A B = some R ∧
          R.getBegin = Max A.getBegin B.getBegin ∧ R.getEnd = Min A.getEnd B.getEnd ∧
          (R.getBegin = A.getBegin ∨ R.getBegin = B.getBegin) ∧
          (((∀ i < A.getDim, getCoord A.getEnd i ≤ getCoord B.getEnd i) ∨
              (∀ i < A.getDim, getCoord B.getEnd i ≤ getCoord A.getEnd i)) →
            ∀ i < A.getDim,
              getCoord R.getEnd i = min (getCoord A.getEnd i) (getCoord B.getEnd i))) ∧
      ((A.isIntersects B result).2 = false → intersection A B = none) := by
  obtain ⟨a1, a2⟩ := hA
  obtain ⟨b1, b2⟩ := hB
  have hhigh : getDim A.getEnd = getDim B.getEnd := by omega
  rw [isIntersects_eq, intersection_eq A B hdim]
  constructor
  · intro h
    simp only at h
    rw [if_pos h]
    refine ⟨_, rfl, rfl, rfl, Max_eq_or _ _, ?_⟩
    intro hc i hi
    rw [← a2] at hc hi
    exact getCoord_Min _ _ ((comparable_iff _ _ hhigh).mpr hc) i hi
  · intro h
    simp only at h
    rw [if_neg (by simp [h])]

theorem intersection_spec_witness :
    (CompactImpl.ctor [0, 0] [4, 4]).WF ∧ (CompactImpl.ctor [1, 1] [2, 2]).WF ∧
      ((CompactImpl.ctor [0, 0] [4, 4]).isIntersects (CompactImpl.ctor [1, 1] [2, 2]) false).2 =
        true ∧
      ∃ R : CompactImpl,
        intersection (CompactImpl.ctor [0, 0] [4, 4]) (CompactImpl.ctor [1, 1] [2, 2]) = some R ∧
          R.getEnd = Min (CompactImpl.ctor [0, 0] [4, 4]).getEnd
            (CompactImpl.ctor [1, 1] [2, 2]).getEnd :=
  have h := (intersection_spec (CompactImpl.ctor [0, 0] [4, 4])
    (CompactImpl.ctor [1, 1] [2, 2]) ⟨rfl, rfl⟩ ⟨rfl, rfl⟩ rfl false).1 (by decide)
  ⟨⟨rfl, rfl⟩, ⟨rfl, rfl⟩, by decide, h.elim fun R hR => ⟨R, hR.1, hR.2.2.1⟩⟩

/-- C14, the counterexample: for `A = [0,0]`–`[2,3]` and `B = [0,0]`–`[3,2]`
both `intersection A B` and `intersection B A` succeed, with the high corners
`[3,2]` and `[2,3]`; and for `A = [2,0]`–`[5,3]`, `B = [1,4]`–`[5,5]`
`intersection A B` succeeds while `intersection B A` is null. -/
theorem intersection_not_comm :
    intersection (CompactImpl.ctor [0, 0] [2, 3]) (CompactImpl.ctor [0, 0] [3, 2]) =
        some (CompactImpl.ctor [0, 0] [3, 2]) ∧
      intersection (CompactImpl.ctor [0, 0] [3, 2]) (CompactImpl.ctor [0, 0] [2, 3]) =
        some (CompactImpl.ctor [0, 0] [2, 3]) ∧
      (CompactImpl.ctor [0, 0] [3, 2]).getEnd ≠ (CompactImpl.ctor [0, 0] [2, 3]).getEnd ∧
      createCompact [2, 0] [5, 3] = some (CompactImpl.ctor [2, 0] [5, 3]) ∧
      createCompact [1, 4] [5, 5] = some (CompactImpl.ctor [1, 4] [5, 5]) ∧
      intersection (CompactImpl.ctor [2, 0] [5, 3]) (CompactImpl.ctor [1, 4] [5, 5]) =
        some (CompactImpl.ctor [2, 0] [5, 3]) ∧
      intersection (CompactImpl.ctor [1, 4] [5, 5]) (CompactImpl.ctor [2, 0] [5, 3]) = none := by
  decide

/-- C14 as amended: for well-shaped compacts `A`, `B` of equal dimension whose
low corners are comparable and whose high corners are comparable,
`intersection A B` and `intersection B A` are the same result: null together,
or compacts with equal low corners and equal high corners. -/
theorem intersection_comm (A B : CompactImpl) (hA : A.WF) (hB : B.WF)
    (hdim : A.getDim = B.getDim)
    (hlow : (∀ i < A.getDim, getCoord A.getBegin i ≤ getCoord B.getBegin i) ∨
      (∀ i < A.getDim, getCoord B.getBegin i ≤ getCoord A.getBegin i))
    (hhigh : (∀ i < A.getDim, getCoord A.getEnd i ≤ getCoord B.getEnd i) ∨
      (∀ i < A.getDim, getCoord B.getEnd i ≤ getCoord A.getEnd i)) :
    intersection A B = intersection B A ∧
      (intersection A B = none ↔ intersection B A = none) ∧
      ∀ R S : CompactImpl, intersection A B = some R → intersection B A = some S →
        R.getBegin = S.getBegin ∧ R.getEnd = S.getEnd := by
  obtain ⟨a1, a2⟩ := hA
  obtain ⟨b1, b2⟩ := hB
  have hl : getDim A.getBegin = getDim B.getBegin := by omega
  have hh : getDim A.getEnd = getDim B.getEnd := by omega
  rw [a1] at hlow
  rw [← a2] at hhigh
  have e1 : Max A.getBegin B.getBegin = Max B.getBegin A.getBegin :=
    Max_comm _ _ ((comparable_iff _ _ hl).mpr hlow)
  have e2 : Min A.getEnd B.getEnd = Min B.getEnd A.getEnd :=
    Min_comm _ _ ((comparable_iff _ _ hh).mpr hhigh)
  have key : intersection A B = intersection B A := by
    rw [intersection_eq A B hdim, intersection_eq B A hdim.symm, e1, e2]
  refine ⟨key, by rw [key], ?_⟩
  intro R S hR hS
  rw [key, hS] at hR
  cases hR
  exact ⟨rfl, rfl⟩

theorem intersection_comm_witness :
    (CompactImpl.ctor [0, 0] [4, 4]).WF ∧ (CompactImpl.ctor [1, 1] [2, 2]).WF ∧
      intersection (CompactImpl.ctor [0, 0] [4, 4]) (CompactImpl.ctor [1, 1] [2, 2]) =
        intersection (CompactImpl.ctor [1, 1] [2, 2]) (CompactImpl.ctor [0, 0] [4, 4]) :=
  ⟨⟨rfl, rfl⟩, ⟨rfl, rfl⟩,
    (intersection_comm (CompactImpl.ctor [0, 0] [4, 4]) (CompactImpl.ctor [1, 1] [2, 2])
      ⟨rfl, rfl⟩ ⟨rfl, rfl⟩ rfl
      (Or.inl (by
        intro i hi
        have hi2 : i < 2 := hi
        interval_cases i <;> norm_num [CompactImpl.ctor, CompactImpl.getBegin, getCoord]))
      (Or.inr (by
        intro i hi
        have hi2 : i < 2 := hi
        interval_cases i <;> norm_num [CompactImpl.ctor, CompactImpl.getEnd, getCoord]))).1⟩
/-! ## The loop of CheckParallel -/

theorem CheckParallelLoop_succ (v : Vec) (st : Nat × ℤ) (n : Nat) :
    CheckParallelLoop v (n + 1) st =
      if (CheckParallelLoop v n st).1 ≤ 1 then
        if significant v n = true then ((CheckParallelLoop v n st).1 + 1, (n : ℤ))
        else CheckParallelLoop v n st
      else CheckParallelLoop v n st := rfl

theorem CheckParallelLoop_mono (v : Vec) (st : Nat × ℤ) (n m : Nat) (h : n ≤ m) :
    (CheckParallelLoop v n st).1 ≤ (CheckParallelLoop v m st).1 := by
  induction m with
  | zero =>
    have : n = 0 := by omega
    subst this
    exact le_refl _
  | succ m ih =>
    by_cases hn : n = m + 1
    · subst hn
      exact le_refl _
    · have h1 := ih (by omega)
      refine le_trans h1 ?_
      rw [CheckParallelLoop_succ]
      split_ifs
      · exact Nat.le_succ _
      · exact le_refl _
      · exact le_refl _

theorem CheckParallelLoop_significant (v : Vec) (st : Nat × ℤ) (n : Nat)
    (h : significant v n = true) :
    min ((CheckParallelLoop v n st).1 + 1) 2 ≤ (CheckParallelLoop v (n + 1) st).1 := by
  rw [CheckParallelLoop_succ, h]
  by_cases hc : (CheckParallelLoop v n st).1 ≤ 1
  · simp only [hc, if_true]
    exact min_le_left _ _
  · simp only [hc, if_false]
    have : 2 ≤ (CheckParallelLoop v n st).1 := by omega
    exact le_trans (min_le_right _ _) this

theorem CheckParallel_two (v : Vec) (x : ℤ) (i j : Nat) (hij : i < j) (hj : j < getDim v)
    (hi' : significant v i = true) (hj' : significant v j = true) :
    (CheckParallel v x).1 = false := by
  have h1 := CheckParallelLoop_significant v (0, x) i hi'
  have h2 := CheckParallelLoop_mono v (0, x) (i + 1) j (by omega)
  have h3 := CheckParallelLoop_significant v (0, x) j hj'
  have h4 := CheckParallelLoop_mono v (0, x) (j + 1) (getDim v) (by omega)
  have h5 : 1 ≤ (CheckParallelLoop v (i + 1) (0, x)).1 := by
    refine le_trans ?_ h1
    simp
  have h6 : 2 ≤ (CheckParallelLoop v (j + 1) (0, x)).1 := by
    refine le_trans ?_ h3
    have : 1 ≤ (CheckParallelLoop v j (0, x)).1 := le_trans h5 h2
    simp only [le_min_iff]
    omega
  unfold CheckParallel
  simp only [decide_eq_false_iff_not, not_le]
  omega

theorem CheckParallelLoop_none (v : Vec) (x : ℤ) (n : Nat)
    (h : ∀ i < n, significant v i = false) : CheckParallelLoop v n (0, x) = (0, x) := by
  induction n with
  | zero => rfl
  | succ n ih =>
    rw [CheckParallelLoop_succ, ih (fun i hi => h i (by omega)), h n (by omega)]
    simp

theorem CheckParallelLoop_one (v : Vec) (x : ℤ) (k n : Nat) (hk : k < n)
    (h : ∀ i < n, (significant v i = true ↔ i = k)) :
    CheckParallelLoop v n (0, x) = (1, (k : ℤ)) := by
  induction n with
  | zero => omega
  | succ n ih =>
    rw [CheckParallelLoop_succ]
    by_cases hkn : k = n
    · subst hkn
      have hnone : ∀ i < k, significant v i = false := by
        intro i hi
        have := (h i (by omega)).not
        simpa [Nat.ne_of_lt hi] using this
      rw [CheckParallelLoop_none v x k hnone, (h k (by omega)).mpr rfl]
      simp
    · have hs : significant v n = false := by
        have := (h n (by omega)).not
        simpa [Ne.symm hkn] using this
      rw [ih (by omega) (fun i hi => h i (by omega)), hs]
      simp

theorem CheckParallel_one (v : Vec) (x : ℤ) (k : Nat) (hk : k < getDim v)
    (h : ∀ i < getDim v, (significant v i = true ↔ i = k)) :
    CheckParallel v x = (true, (k : ℤ)) := by
  unfold CheckParallel
  rw [CheckParallelLoop_one v x k (getDim v) hk h]
  simp

theorem getDim_subCoords (a b : Vec) : getDim (subCoords a b) = getDim a := by
  simp [subCoords, getDim]

theorem CompactInCompact_iff (A B : CompactImpl) (hA : A.WF) (hB : B.WF)
    (hdim : A.getDim = B.getDim) :
    CompactInCompact A B = true ↔
      (∀ i < A.getDim, getCoord A.getBegin i ≤ getCoord B.getBegin i) ∧
        (∀ i < A.getDim, getCoord B.getEnd i ≤ getCoord A.getEnd i) := by
  obtain ⟨a1, a2⟩ := hA
  obtain ⟨b1, b2⟩ := hB
  unfold getDim at a1 a2 b1 b2
  unfold CompactInCompact
  rw [Bool.and_eq_true, Less_iff, Less_iff]
  constructor
  · rintro ⟨⟨_, h1⟩, ⟨_, h2⟩⟩
    exact ⟨fun i hi => h1 i (by omega), fun i hi => h2 i (by omega)⟩
  · rintro ⟨h1, h2⟩
    exact ⟨⟨by omega, fun i hi => h1 i (by omega)⟩, ⟨by omega, fun i hi => h2 i (by omega)⟩⟩

theorem add_eq (A B : CompactImpl) (hA : A.WF) (hB : B.WF) (hdim : A.getDim = B.getDim)
    (x y : ℤ) (hAB : CompactInCompact A B = false) (hBA : CompactInCompact B A = false) :
    add A B x y =
      if (CheckParallel (subCoords A.getBegin B.getBegin) x).1 = true then
        if (CheckParallel (subCoords A.getEnd B.getEnd) y).1 = true then
          if (CheckParallel (subCoords A.getBegin B.getBegin) x).2 =
              (CheckParallel (subCoords A.getEnd B.getEnd) y).2 then
            createCompact (Min A.getBegin B.getBegin) (Max A.getEnd B.getEnd)
          else none
        else none
      else none := by
  obtain ⟨a1, a2⟩ := hA
  obtain ⟨b1, b2⟩ := hB
  have hl : getDim A.getBegin = getDim B.getBegin := by omega
  have hh : getDim A.getEnd = getDim B.getEnd := by omega
  unfold add
  simp only [CheckDataCompact, hdim, decide_True, Bool.not_true, Bool.false_eq_true, if_false,
    hAB, hBA, sub, hl, hh, ne_eq, not_true_eq_false]
/-! ## Merging two compacts -/

/-- C15 (the code departs from it): `Max` is `Min` with the arguments swapped,
so for comparable corners it returns the lesser one. For `[0,0]`–`[2,2]` and
`[2,0]`–`[4,2]`, whose corner differences are both `[-2,0]`, `add` returns
`[0,0]`–`[2,2]` and not the bounding compact `[0,0]`–`[4,2]`. -/
theorem add_touching_boxes :
    createCompact [0, 0] [2, 2] = some (CompactImpl.ctor [0, 0] [2, 2]) ∧
      createCompact [2, 0] [4, 2] = some (CompactImpl.ctor [2, 0] [4, 2]) ∧
      CompactInCompact (CompactImpl.ctor [0, 0] [2, 2]) (CompactImpl.ctor [2, 0] [4, 2]) = false ∧
      CompactInCompact (CompactImpl.ctor [2, 0] [4, 2]) (CompactImpl.ctor [0, 0] [2, 2]) = false ∧
      subCoords [0, 0] [2, 0] = [-2, 0] ∧ subCoords [2, 2] [4, 2] = [-2, 0] ∧
      Max [2, 2] [4, 2] = [2, 2] ∧
      (∀ x y : ℤ,
        add (CompactImpl.ctor [0, 0] [2, 2]) (CompactImpl.ctor [2, 0] [4, 2]) x y =
          some (CompactImpl.ctor [0, 0] [2, 2])) ∧
      CompactImpl.ctor [0, 0] [2, 2] ≠ CompactImpl.ctor [0, 0] [4, 2] := by
  refine ⟨by decide, by decide, by decide, by decide, ?_, ?_, by decide, ?_, by decide⟩
  · norm_num [subCoords, getDim, getCoord, List.range_succ]
  · norm_num [subCoords, getDim, getCoord, List.range_succ]
  · intro x y
    norm_num [add, CheckDataCompact, CompactInCompact, CompactImpl.ctor, CompactImpl.getBegin,
      CompactImpl.getEnd, CompactImpl.getDim, CompactImpl.clone, Less, sub, subCoords,
      CheckParallel, CheckParallelLoop, significant, infNorm, infNormLoop, getDim, getCoord,
      List.range_succ, TOLERANCE, Min, Max, createCompact, CheckData, abs_div, abs_inv, abs_neg,
      Nat.abs_ofNat, abs_one]

/-- C16, the counterexample: for `A = [1048576, 1]`–`[1048580, 5]` and
`B = [0,0]`–`[1048579, 5]`, neither of which contains the other, the difference
of the low corners `[1048576, 1]` is non-zero in two components, and `add`
returns a compact. -/
theorem add_two_nonzero_components :
    createCompact [1048576, 1] [1048580, 5] = some (CompactImpl.ctor [1048576, 1] [1048580, 5]) ∧
      createCompact [0, 0] [1048579, 5] = some (CompactImpl.ctor [0, 0] [1048579, 5]) ∧
      CompactInCompact (CompactImpl.ctor [1048576, 1] [1048580, 5])
          (CompactImpl.ctor [0, 0] [1048579, 5]) = false ∧
      CompactInCompact (CompactImpl.ctor [0, 0] [1048579, 5])
          (CompactImpl.ctor [1048576, 1] [1048580, 5]) = false ∧
      subCoords [1048576, 1] [0, 0] = [1048576, 1] ∧
      add (CompactImpl.ctor [1048576, 1] [1048580, 5]) (CompactImpl.ctor [0, 0] [1048579, 5]) 0 0 =
        some (CompactImpl.ctor [0, 0] [1048579, 5]) := by
  refine ⟨by decide, by decide, by decide, by decide, ?_, ?_⟩
  · norm_num [subCoords, getDim, getCoord, List.range_succ]
  · norm_num [add, CheckDataCompact, CompactInCompact, CompactImpl.ctor, CompactImpl.getBegin,
      CompactImpl.getEnd, CompactImpl.getDim, CompactImpl.clone, Less, sub, subCoords,
      CheckParallel, CheckParallelLoop, significant, infNorm, infNormLoop, getDim, getCoord,
      List.range_succ, TOLERANCE, Min, Max, createCompact, CheckData, abs_div, abs_inv, abs_neg,
      Nat.abs_ofNat, abs_one]

/-- C18 (the code departs from it): a failed `CompactsIsConnected` is logged
and `add` goes on. `A = [1048576, 2]`–`[1048577, 3]` and `B = [0,4]`–`[1,5]`
are not connected (`A.low <= B.high` fails on axis 0, `B.low <= A.high` on
axis 1), both corner differences are `[1048576, -2]`, with one component above
the relative tolerance, and `add` returns a compact. -/
theorem add_not_connected :
    createCompact [1048576, 2] [1048577, 3] = some (CompactImpl.ctor [1048576, 2] [1048577, 3]) ∧
      createCompact [0, 4] [1, 5] = some (CompactImpl.ctor [0, 4] [1, 5]) ∧
      CompactsIsConnected (CompactImpl.ctor [1048576, 2] [1048577, 3])
          (CompactImpl.ctor [0, 4] [1, 5]) = false ∧
      Less [1048576, 2] [1, 5] = false ∧
      Less [0, 4] [1048577, 3] = false ∧
      subCoords [1048576, 2] [0, 4] = [1048576, -2] ∧
      subCoords [1048577, 3] [1, 5] = [1048576, -2] ∧
      ∀ x y : ℤ,
        add (CompactImpl.ctor [1048576, 2] [1048577, 3]) (CompactImpl.ctor [0, 4] [1, 5]) x y =
          some (CompactImpl.ctor [1048577, 3] [0, 4]) := by
  refine ⟨by decide, by decide, by decide, by decide, by decide, ?_, ?_, ?_⟩
  · norm_num [subCoords, getDim, getCoord, List.range_succ]
  · norm_num [subCoords, getDim, getCoord, List.range_succ]
  · intro x y
    norm_num [add, CheckDataCompact, CompactInCompact, CompactImpl.ctor, CompactImpl.getBegin,
      CompactImpl.getEnd, CompactImpl.getDim, CompactImpl.clone, Less, sub, subCoords,
      CheckParallel, CheckParallelLoop, significant, infNorm, infNormLoop, getDim, getCoord,
      List.range_succ, TOLERANCE, Min, Max, createCompact, CheckData, abs_div, abs_inv, abs_neg,
      Nat.abs_ofNat, abs_one]
/-- C16 as amended: for well-shaped compacts `A`, `B` of equal dimension
neither of which contains the other, `add` returns the null result when the
difference of the low corners, or that of the high corners, has two or more
components above the relative tolerance of `CheckParallel`
(`|d[i] / norm| > TOLERANCE`, with `norm` the infinity norm of `d`), or when each
difference has exactly one such component and the two are on different axes;
`add` of `[0,0]`–`[2,2]` and `[1,1]`–`[3,3]` is null. -/
theorem add_not_parallel (A B : CompactImpl) (hA : A.WF) (hB : B.WF)
    (hdim : A.getDim = B.getDim) (x y : ℤ)
    (hAB : ¬ ((∀ i < A.getDim, getCoord A.getBegin i ≤ getCoord B.getBegin i) ∧
      (∀ i < A.getDim, getCoord B.getEnd i ≤ getCoord A.getEnd i)))
    (hBA : ¬ ((∀ i < A.getDim, getCoord B.getBegin i ≤ getCoord A.getBegin i) ∧
      (∀ i < A.getDim, getCoord A.getEnd i ≤ getCoord B.getEnd i)))
    (h : (∃ i j, i < j ∧ j < A.getDim ∧
          significant (subCoords A.getBegin B.getBegin) i = true ∧
          significant (subCoords A.getBegin B.getBegin) j = true) ∨
        (∃ i j, i < j ∧ j < A.getDim ∧
          significant (subCoords A.getEnd B.getEnd) i = true ∧
          significant (subCoords A.getEnd B.getEnd) j = true) ∨
        (∃ k₁ k₂, k₁ < A.getDim ∧ k₂ < A.getDim ∧ k₁ ≠ k₂ ∧
          (∀ i < A.getDim, (significant (subCoords A.getBegin B.getBegin) i = true ↔ i = k₁)) ∧
          (∀ i < A.getDim, (significant (subCoords A.getEnd B.getEnd) i = true ↔ i = k₂)))) :
    add A B x y = none ∧
      ∀ u v : ℤ,
        add (CompactImpl.ctor [0, 0] [2, 2]) (CompactImpl.ctor [1, 1] [3, 3]) u v = none := by
  constructor
  · have c1 : CompactInCompact A B = false := by
      rw [← Bool.not_eq_true, CompactInCompact_iff A B hA hB hdim]
      exact hAB
    have c2 : CompactInCompact B A = false := by
      rw [← Bool.not_eq_true, CompactInCompact_iff B A hB hA hdim.symm, ← hdim]
      exact hBA
    have dl : getDim (subCoords A.getBegin B.getBegin) = A.getDim := by
      rw [getDim_subCoords]; exact hA.1.symm
    have dh : getDim (subCoords A.getEnd B.getEnd) = A.getDim := by
      rw [getDim_subCoords]; exact hA.2
    rw [add_eq A B hA hB hdim x y c1 c2]
    rcases h with ⟨i, j, hij, hj, si, sj⟩ | ⟨i, j, hij, hj, si, sj⟩ | ⟨k₁, k₂, h1, h2, hne, s1, s2⟩
    · rw [CheckParallel_two _ x i j hij (by rw [dl]; exact hj) si sj]
      simp
    · rw [CheckParallel_two _ y i j hij (by rw [dh]; exact hj) si sj]
      simp
    · rw [CheckParallel_one _ x k₁ (by rw [dl]; exact h1) (by rw [dl]; exact s1),
        CheckParallel_one _ y k₂ (by rw [dh]; exact h2) (by rw [dh]; exact s2)]
      have : (k₁ : ℤ) ≠ (k₂ : ℤ) := by exact_mod_cast hne
      simp [this]
  · intro u v
    norm_num [add, CheckDataCompact, CompactInCompact, CompactImpl.ctor, CompactImpl.getBegin,
      CompactImpl.getEnd, CompactImpl.getDim, CompactImpl.clone, Less, sub, subCoords,
      CheckParallel, CheckParallelLoop, significant, infNorm, infNormLoop, getDim, getCoord,
      List.range_succ, TOLERANCE, Min, Max, createCompact, CheckData, abs_div, abs_inv, abs_neg,
      Nat.abs_ofNat, abs_one]

theorem add_not_parallel_witness :
    (CompactImpl.ctor [0, 0] [2, 2]).WF ∧ (CompactImpl.ctor [1, 1] [3, 3]).WF ∧
      significant (subCoords [0, 0] [1, 1]) 0 = true ∧
      significant (subCoords [0, 0] [1, 1]) 1 = true ∧
      add (CompactImpl.ctor [0, 0] [2, 2]) (CompactImpl.ctor [1, 1] [3, 3]) 0 0 = none :=
  have s0 : significant (subCoords [0, 0] [1, 1]) 0 = true := by
    norm_num [significant, subCoords, infNorm, infNormLoop, getDim, getCoord, List.range_succ,
      TOLERANCE, abs_div, abs_neg, abs_one]
  have s1 : significant (subCoords [0, 0] [1, 1]) 1 = true := by
    norm_num [significant, subCoords, infNorm, infNormLoop, getDim, getCoord, List.range_succ,
      TOLERANCE, abs_div, abs_neg, abs_one]
  ⟨⟨rfl, rfl⟩, ⟨rfl, rfl⟩, s0, s1,
    (add_not_parallel (CompactImpl.ctor [0, 0] [2, 2]) (CompactImpl.ctor [1, 1] [3, 3])
      ⟨rfl, rfl⟩ ⟨rfl, rfl⟩ rfl 0 0
      (fun h => absurd (h.2 0 (by decide))
        (by norm_num [CompactImpl.ctor, CompactImpl.getEnd, getCoord]))
      (fun h => absurd (h.1 0 (by decide))
        (by norm_num [CompactImpl.ctor, CompactImpl.getBegin, getCoord]))
      (Or.inl ⟨0, 1, by decide, by decide, s0, s1⟩)).1⟩

/-- C17: for well-shaped compacts `A`, `B` of equal dimension where `A`
contains `B` (`A.low <= B.low` and `B.high <= A.high` on every axis), `add A B`
and `add B A` both return a compact whose corners are those of `A`. -/
theorem add_contained (A B : CompactImpl) (hA : A.WF) (hB : B.WF)
    (hdim : A.getDim = B.getDim) (x y u v : ℤ)
    (h1 : ∀ i < A.getDim, getCoord A.getBegin i ≤ getCoord B.getBegin i)
    (h2 : ∀ i < A.getDim, getCoord B.getEnd i ≤ getCoord A.getEnd i) :
    (∃ R : CompactImpl, add A B x y = some R ∧
        R.getBegin = A.getBegin ∧ R.getEnd = A.getEnd) ∧
      ∃ S : CompactImpl, add B A u v = some S ∧
        S.getBegin = A.getBegin ∧ S.getEnd = A.getEnd := by
  have c1 : CompactInCompact A B = true :=
    (CompactInCompact_iff A B hA hB hdim).mpr ⟨h1, h2⟩
  constructor
  · refine ⟨A.clone, ?_, rfl, rfl⟩
    unfold add
    simp [CheckDataCompact, hdim, c1]
  · by_cases c2 : CompactInCompact B A = true
    · obtain ⟨g1, g2⟩ := (CompactInCompact_iff B A hB hA hdim.symm).mp c2
      rw [← hdim] at g1 g2
      obtain ⟨a1, a2⟩ := hA
      obtain ⟨b1, b2⟩ := hB
      have e1 : B.getBegin = A.getBegin := by
        apply vec_ext
        · show getDim B.getBegin = getDim A.getBegin
          omega
        · intro i hi
          have hi' : i < A.getDim := by
            have : B.getBegin.length = getDim B.getBegin := rfl
            omega
          exact le_antisymm (g1 i hi') (h1 i hi')
      have e2 : B.getEnd = A.getEnd := by
        apply vec_ext
        · show getDim B.getEnd = getDim A.getEnd
          omega
        · intro i hi
          have hi' : i < A.getDim := by
            have : B.getEnd.length = getDim B.getEnd := rfl
            omega
          exact le_antisymm (h2 i hi') (g2 i hi')
      refine ⟨B.clone, ?_, e1, e2⟩
      unfold add
      simp [CheckDataCompact, hdim, c2]
    · refine ⟨A.clone, ?_, rfl, rfl⟩
      unfold add
      simp [CheckDataCompact, hdim, c1, c2]

theorem add_contained_witness :
    (CompactImpl.ctor [0, 0] [4, 4]).WF ∧ (CompactImpl.ctor [1, 1] [2, 2]).WF ∧
      (∃ R : CompactImpl,
        add (CompactImpl.ctor [0, 0] [4, 4]) (CompactImpl.ctor [1, 1] [2, 2]) 0 0 = some R ∧
          R.getBegin = (CompactImpl.ctor [0, 0] [4, 4]).getBegin ∧
          R.getEnd = (CompactImpl.ctor [0, 0] [4, 4]).getEnd) ∧
      ∃ S : CompactImpl,
        add (CompactImpl.ctor [1, 1] [2, 2]) (CompactImpl.ctor [0, 0] [4, 4]) 0 0 = some S ∧
          S.getBegin = (CompactImpl.ctor [0, 0] [4, 4]).getBegin ∧
          S.getEnd = (CompactImpl.ctor [0, 0] [4, 4]).getEnd :=
  ⟨⟨rfl, rfl⟩, ⟨rfl, rfl⟩,
    add_contained (CompactImpl.ctor [0, 0] [4, 4]) (CompactImpl.ctor [1, 1] [2, 2])
      ⟨rfl, rfl⟩ ⟨rfl, rfl⟩ rfl 0 0 0 0
      (by
        intro i hi
        have hi2 : i < 2 := hi
        interval_cases i <;> norm_num [CompactImpl.ctor, CompactImpl.getBegin, getCoord])
      (by
        intro i hi
        have hi2 : i < 2 := hi
        interval_cases i <;> norm_num [CompactImpl.ctor, CompactImpl.getEnd, getCoord])⟩
/-! ## Convex hull of two compacts -/

theorem createCompact_isSome (a b : Vec) (h : getDim a = getDim b) :
    ∃ R : CompactImpl, createCompact a b = some R ∧
      (R = CompactImpl.ctor a b ∨ R = CompactImpl.ctor b a) := by
  by_cases hl : Less a b = true
  · exact ⟨_, createCompact_of_Less a b hl, Or.inl rfl⟩
  · exact ⟨_, createCompact_of_not_Less a b h (by simpa using hl), Or.inr rfl⟩

/-- C19, the counterexample: for `A = [0,1]`–`[5,5]` and `B = [1,0]`–`[5,5]`
`makeConvex A B` is `[1,0]`–`[5,5]`; its low coordinate on axis 0 is `1`, above
the low coordinate `0` of `A`, and `isSubSet` reports that it does not
contain `A`. -/
theorem makeConvex_not_hull :
    createCompact [0, 1] [5, 5] = some (CompactImpl.ctor [0, 1] [5, 5]) ∧
      createCompact [1, 0] [5, 5] = some (CompactImpl.ctor [1, 0] [5, 5]) ∧
      makeConvex (CompactImpl.ctor [0, 1] [5, 5]) (CompactImpl.ctor [1, 0] [5, 5]) =
        some (CompactImpl.ctor [1, 0] [5, 5]) ∧
      (CompactImpl.ctor [1, 0] [5, 5]).isSubSet (CompactImpl.ctor [0, 1] [5, 5]) true =
        (SUCCESS, false) ∧
      ¬ (getCoord (CompactImpl.ctor [1, 0] [5, 5]).getBegin 0 ≤
        min (getCoord (CompactImpl.ctor [0, 1] [5, 5]).getBegin 0)
          (getCoord (CompactImpl.ctor [1, 0] [5, 5]).getBegin 0)) := by
  refine ⟨by decide, by decide, by decide, by decide, ?_⟩
  norm_num [CompactImpl.ctor, CompactImpl.getBegin, getCoord]

/-- C19 as amended: for valid compacts `A`, `B` of equal dimension `makeConvex`
returns a compact; when the two low corners are comparable, its low corner is
their component-wise minimum, below both low corners on every axis, and its
high corner is the one of the two high corners that `Max` returns. -/
theorem makeConvex_spec (A B : CompactImpl) (hA : A.Valid) (hB : B.Valid)
    (hdim : A.getDim = B.getDim) :
    ∃ R : CompactImpl, makeConvex A B = some R ∧
      (((∀ i < A.getDim, getCoord A.getBegin i ≤ getCoord B.getBegin i) ∨
          (∀ i < A.getDim, getCoord B.getBegin i ≤ getCoord A.getBegin i)) →
        R.getEnd = Max A.getEnd B.getEnd ∧
          (R.getEnd = A.getEnd ∨ R.getEnd = B.getEnd) ∧
          ∀ i < A.getDim,
            getCoord R.getBegin i = min (getCoord A.getBegin i) (getCoord B.getBegin i) ∧
              getCoord R.getBegin i ≤ getCoord A.getBegin i ∧
              getCoord R.getBegin i ≤ getCoord B.getBegin i) := by
  obtain ⟨⟨a1, a2⟩, a3⟩ := hA
  obtain ⟨⟨b1, b2⟩, b3⟩ := hB
  have hl : getDim A.getBegin = getDim B.getBegin := by omega
  have hh : getDim A.getEnd = getDim B.getEnd := by omega
  have dmin : getDim (Min A.getBegin B.getBegin) = A.getDim := by
    rw [getDim_Min _ _ hl]; omega
  have dmax : getDim (Max A.getEnd B.getEnd) = A.getDim := by
    rw [getDim_Max _ _ hh]; omega
  by_cases hc : (∀ i < A.getDim, getCoord A.getBegin i ≤ getCoord B.getBegin i) ∨
      (∀ i < A.getDim, getCoord B.getBegin i ≤ getCoord A.getBegin i)
  · have hc' : Less A.getBegin B.getBegin = true ∨ Less B.getBegin A.getBegin = true := by
      rw [a1] at hc
      exact (comparable_iff _ _ hl).mpr hc
    have hmin : ∀ i < A.getDim, getCoord (Min A.getBegin B.getBegin) i =
        min (getCoord A.getBegin i) (getCoord B.getBegin i) :=
      fun i hi => getCoord_Min _ _ hc' i (by omega)
    have hless : Less (Min A.getBegin B.getBegin) (Max A.getEnd B.getEnd) = true := by
      rw [Less_iff]
      refine ⟨by unfold getDim at dmin dmax; omega, ?_⟩
      intro i hi
      have hi' : i < A.getDim := by unfold getDim at dmin; omega
      rw [hmin i hi']
      rcases Max_eq_or A.getEnd B.getEnd with e | e <;> rw [e]
      · exact le_trans (min_le_left _ _) (a3 i hi')
      · exact le_trans (min_le_right _ _) (b3 i (by omega))
    refine ⟨_, createCompact_of_Less _ _ hless, fun _ => ⟨rfl, Max_eq_or _ _, ?_⟩⟩
    intro i hi
    have hg : getCoord (CompactImpl.ctor (Min A.getBegin B.getBegin)
        (Max A.getEnd B.getEnd)).getBegin i =
        min (getCoord A.getBegin i) (getCoord B.getBegin i) := hmin i hi
    refine ⟨hg, ?_, ?_⟩
    · rw [hg]
      exact min_le_left _ _
    · rw [hg]
      exact min_le_right _ _
  · obtain ⟨R, hR, _⟩ := createCompact_isSome (Min A.getBegin B.getBegin)
      (Max A.getEnd B.getEnd) (by omega)
    exact ⟨R, hR, fun h => absurd h hc⟩

theorem makeConvex_spec_witness :
    (CompactImpl.ctor [0, 0] [2, 2]).Valid ∧ (CompactImpl.ctor [1, 1] [3, 3]).Valid ∧
      ∃ R : CompactImpl,
        makeConvex (CompactImpl.ctor [0, 0] [2, 2]) (CompactImpl.ctor [1, 1] [3, 3]) = some R :=
  have v1 : (CompactImpl.ctor [0, 0] [2, 2]).Valid :=
    ⟨⟨rfl, rfl⟩, by
      intro i hi
      have hi2 : i < 2 := hi
      interval_cases i <;>
        norm_num [CompactImpl.ctor, CompactImpl.getBegin, CompactImpl.getEnd, getCoord]⟩
  have v2 : (CompactImpl.ctor [1, 1] [3, 3]).Valid :=
    ⟨⟨rfl, rfl⟩, by
      intro i hi
      have hi2 : i < 2 := hi
      interval_cases i <;>
        norm_num [CompactImpl.ctor, CompactImpl.getBegin, CompactImpl.getEnd, getCoord]⟩
  ⟨v1, v2, (makeConvex_spec _ _ v1 v2 rfl).elim fun R hR => ⟨R, hR.1⟩⟩

/-- C20, the counterexample: for `A = [0,1]`–`[5,5]` and `B = [1,0]`–`[5,5]`
`makeConvex A B` has the low corner `[1,0]` and `makeConvex B A` the low
corner `[0,1]`. -/
theorem makeConvex_not_comm :
    makeConvex (CompactImpl.ctor [0, 1] [5, 5]) (CompactImpl.ctor [1, 0] [5, 5]) =
        some (CompactImpl.ctor [1, 0] [5, 5]) ∧
      makeConvex (CompactImpl.ctor [1, 0] [5, 5]) (CompactImpl.ctor [0, 1] [5, 5]) =
        some (CompactImpl.ctor [0, 1] [5, 5]) ∧
      (CompactImpl.ctor [1, 0] [5, 5]).getBegin ≠ (CompactImpl.ctor [0, 1] [5, 5]).getBegin := by
  decide

/-- C20 as amended: for well-shaped compacts `A`, `B` of equal dimension whose
low corners are comparable and whose high corners are comparable,
`makeConvex A B` and `makeConvex B A` return the same compact: equal low
corners and equal high corners. -/
theorem makeConvex_comm (A B : CompactImpl) (hA : A.WF) (hB : B.WF)
    (hdim : A.getDim = B.getDim)
    (hlow : (∀ i < A.getDim, getCoord A.getBegin i ≤ getCoord B.getBegin i) ∨
      (∀ i < A.getDim, getCoord B.getBegin i ≤ getCoord A.getBegin i))
    (hhigh : (∀ i < A.getDim, getCoord A.getEnd i ≤ getCoord B.getEnd i) ∨
      (∀ i < A.getDim, getCoord B.getEnd i ≤ getCoord A.getEnd i)) :
    makeConvex A B = makeConvex B A ∧
      ∃ R : CompactImpl, makeConvex A B = some R ∧ makeConvex B A = some R := by
  obtain ⟨a1, a2⟩ := hA
  obtain ⟨b1, b2⟩ := hB
  have hl : getDim A.getBegin = getDim B.getBegin := by omega
  have hh : getDim A.getEnd = getDim B.getEnd := by omega
  rw [a1] at hlow
  rw [← a2] at hhigh
  have e1 : Min A.getBegin B.getBegin = Min B.getBegin A.getBegin :=
    Min_comm _ _ ((comparable_iff _ _ hl).mpr hlow)
  have e2 : Max A.getEnd B.getEnd = Max B.getEnd A.getEnd :=
    Max_comm _ _ ((comparable_iff _ _ hh).mpr hhigh)
  have key : makeConvex A B = makeConvex B A := by
    unfold makeConvex
    rw [e1, e2]
  obtain ⟨R, hR, _⟩ := createCompact_isSome (Min A.getBegin B.getBegin)
    (Max A.getEnd B.getEnd) (by rw [getDim_Min _ _ hl, getDim_Max _ _ hh]; omega)
  exact ⟨key, R, hR, by rw [← key]; exact hR⟩

theorem makeConvex_comm_witness :
    (CompactImpl.ctor [0, 0] [2, 2]).WF ∧ (CompactImpl.ctor [1, 1] [3, 3]).WF ∧
      makeConvex (CompactImpl.ctor [0, 0] [2, 2]) (CompactImpl.ctor [1, 1] [3, 3]) =
        makeConvex (CompactImpl.ctor [1, 1] [3, 3]) (CompactImpl.ctor [0, 0] [2, 2]) :=
  ⟨⟨rfl, rfl⟩, ⟨rfl, rfl⟩,
    (makeConvex_comm (CompactImpl.ctor [0, 0] [2, 2]) (CompactImpl.ctor [1, 1] [3, 3])
      ⟨rfl, rfl⟩ ⟨rfl, rfl⟩ rfl
      (Or.inl (by
        intro i hi
        have hi2 : i < 2 := hi
        interval_cases i <;> norm_num [CompactImpl.ctor, CompactImpl.getBegin, getCoord]))
      (Or.inl (by
        intro i hi
        have hi2 : i < 2 := hi
        interval_cases i <;> norm_num [CompactImpl.ctor, CompactImpl.getEnd, getCoord]))).1⟩

/-! ## Subsets and the corners of a compact -/

theorem isContains_eq (C : CompactImpl) (p : Vec) (result : Bool)
    (h : getDim p = C.getDim) :
    C.isContains p result = (SUCCESS, Less C.getBegin p && Less p C.getEnd) := by
  unfold CompactImpl.isContains
  rw [if_neg (not_not.mpr h)]
  rfl

/-- C21: for well-shaped compacts `A`, `B` of equal dimension `A.isSubSet(B)`
returns success, and its result is true exactly when `A.isContains` returns
success with the result true for the low corner of `B` and for its high
corner. -/
theorem isSubSet_spec (A B : CompactImpl) (hB : B.WF) (hdim : A.getDim = B.getDim)
    (result r₁ r₂ : Bool) :
    (A.isSubSet B result).1 = SUCCESS ∧
      ((A.isSubSet B result).2 = true ↔
        (A.isContains B.getBegin r₁ = (SUCCESS, true) ∧
          A.isContains B.getEnd r₂ = (SUCCESS, true))) := by
  obtain ⟨b1, b2⟩ := hB
  have h1 : getDim B.getBegin = A.getDim := by omega
  have h2 : getDim B.getEnd = A.getDim := by omega
  refine ⟨rfl, ?_⟩
  unfold CompactImpl.isSubSet
  simp only [isContains_eq A _ _ h1, isContains_eq A _ _ h2, Prod.mk.injEq, true_and]
  by_cases hc : (Less A.getBegin B.getBegin && Less B.getBegin A.getEnd) = true
  · simp [hc]
  · simp [hc]

theorem isSubSet_spec_witness :
    (CompactImpl.ctor [1, 1] [2, 2]).WF ∧
      ((CompactImpl.ctor [0, 0] [4, 4]).isSubSet (CompactImpl.ctor [1, 1] [2, 2]) false).1 =
        SUCCESS ∧
      (((CompactImpl.ctor [0, 0] [4, 4]).isSubSet (CompactImpl.ctor [1, 1] [2, 2]) false).2 = true ↔
        ((CompactImpl.ctor [0, 0] [4, 4]).isContains (CompactImpl.ctor [1, 1] [2, 2]).getBegin false =
            (SUCCESS, true) ∧
          (CompactImpl.ctor [0, 0] [4, 4]).isContains (CompactImpl.ctor [1, 1] [2, 2]).getEnd false =
            (SUCCESS, true))) :=
  ⟨⟨rfl, rfl⟩,
    isSubSet_spec (CompactImpl.ctor [0, 0] [4, 4]) (CompactImpl.ctor [1, 1] [2, 2]) ⟨rfl, rfl⟩ rfl
      false false false⟩

theorem Less_low_high (C : CompactImpl) (hC : C.Valid) : Less C.getBegin C.getEnd = true := by
  obtain ⟨⟨c1, c2⟩, c3⟩ := hC
  rw [Less_iff]
  unfold getDim at c1 c2
  exact ⟨by omega, fun i hi => c3 i (by omega)⟩

theorem isContains_corners (C : CompactImpl) (hC : C.Valid) (r : Bool) :
    C.isContains C.getBegin r = (SUCCESS, true) ∧ C.isContains C.getEnd r = (SUCCESS, true) := by
  have hl := Less_low_high C hC
  obtain ⟨⟨c1, c2⟩, _⟩ := hC
  rw [isContains_eq C _ _ c1.symm, isContains_eq C _ _ c2]
  simp [hl, Less_refl]

/-- C22: for a compact `C` with `low[i] <= high[i]` on every axis,
`C.isContains(C.low)` and `C.isContains(C.high)` both return success with the
result true. -/
theorem isContains_own_corners (C : CompactImpl) (hC : C.Valid) (r₁ r₂ : Bool) :
    C.isContains C.getBegin r₁ = (SUCCESS, true) ∧
      C.isContains C.getEnd r₂ = (SUCCESS, true) :=
  ⟨(isContains_corners C hC r₁).1, (isContains_corners C hC r₂).2⟩

theorem valid_box_0_4 : (CompactImpl.ctor [0, 0] [4, 4]).Valid :=
  ⟨⟨rfl, rfl⟩, by
    intro i hi
    have hi2 : i < 2 := hi
    interval_cases i <;>
      norm_num [CompactImpl.ctor, CompactImpl.getBegin, CompactImpl.getEnd, getCoord]⟩

theorem isContains_own_corners_witness :
    (CompactImpl.ctor [0, 0] [4, 4]).Valid ∧
      (CompactImpl.ctor [0, 0] [4, 4]).isContains (CompactImpl.ctor [0, 0] [4, 4]).getBegin false =
        (SUCCESS, true) ∧
      (CompactImpl.ctor [0, 0] [4, 4]).isContains (CompactImpl.ctor [0, 0] [4, 4]).getEnd false =
        (SUCCESS, true) :=
  ⟨valid_box_0_4, isContains_own_corners _ valid_box_0_4 false false⟩

/-- C23: for a compact `X` with `low[i] <= high[i]` on every axis,
`X.isSubSet(X)` returns success with the result true. -/
theorem isSubSet_self (X : CompactImpl) (hX : X.Valid) (result : Bool) :
    X.isSubSet X result = (SUCCESS, true) := by
  obtain ⟨h1, h2⟩ := isContains_corners X hX false
  have h3 := (isContains_corners X hX true).2
  unfold CompactImpl.isSubSet
  simp [h1, h2, h3]

theorem isSubSet_self_witness :
    (CompactImpl.ctor [0, 0] [4, 4]).Valid ∧
      (CompactImpl.ctor [0, 0] [4, 4]).isSubSet (CompactImpl.ctor [0, 0] [4, 4]) false =
        (SUCCESS, true) :=
  ⟨valid_box_0_4, isSubSet_self _ valid_box_0_4 false⟩

/-! ## Intervals -/

/-- C29: two 1-dimensional compacts with `low <= high` always intersect
according to `isIntersects`, whatever their positions, so `intersection`
returns a compact for them; the disjoint intervals `[0]`–`[1]` and `[5]`–`[6]`
report true and their `intersection` is `[0]`–`[1]`. -/
theorem isIntersects_line (A B : CompactImpl) (hA : A.Valid) (hB : B.Valid)
    (hdA : A.getDim = 1) (hdB : B.getDim = 1) (result : Bool) :
    A.isIntersects B result = (SUCCESS, true) ∧
      (∃ R : CompactImpl, intersection A B = some R) ∧
      createCompact [0] [1] = some (CompactImpl.ctor [0] [1]) ∧
      createCompact [5] [6] = some (CompactImpl.ctor [5] [6]) ∧
      (CompactImpl.ctor [0] [1]).isIntersects (CompactImpl.ctor [5] [6]) false = (SUCCESS, true) ∧
      intersection (CompactImpl.ctor [0] [1]) (CompactImpl.ctor [5] [6]) =
        some (CompactImpl.ctor [0] [1]) := by
  obtain ⟨⟨a1, a2⟩, a3⟩ := hA
  obtain ⟨⟨b1, b2⟩, b3⟩ := hB
  have hl : getDim A.getBegin = getDim B.getBegin := by omega
  have hh : getDim A.getEnd = getDim B.getEnd := by omega
  have cl : Less B.getBegin A.getBegin = true ∨ Less A.getBegin B.getBegin = true := by
    rw [comparable_iff _ _ hl.symm]
    rcases le_total (getCoord B.getBegin 0) (getCoord A.getBegin 0) with h | h
    · left
      intro i hi
      have : i = 0 := by omega
      subst this
      exact h
    · right
      intro i hi
      have : i = 0 := by omega
      subst this
      exact h
  have ch : Less A.getEnd B.getEnd = true ∨ Less B.getEnd A.getEnd = true := by
    rw [comparable_iff _ _ hh]
    rcases le_total (getCoord A.getEnd 0) (getCoord B.getEnd 0) with h | h
    · left
      intro i hi
      have : i = 0 := by omega
      subst this
      exact h
    · right
      intro i hi
      have : i = 0 := by omega
      subst this
      exact h
  have key : Less (Max A.getBegin B.getBegin) (Min A.getEnd B.getEnd) = true := by
    rw [Less_iff]
    have d1 : getDim (Max A.getBegin B.getBegin) = 1 := by
      rw [getDim_Max _ _ hl]; omega
    have d2 : getDim (Min A.getEnd B.getEnd) = 1 := by
      rw [getDim_Min _ _ hh]; omega
    unfold getDim at d1 d2
    refine ⟨by omega, ?_⟩
    intro i hi
    have : i = 0 := by omega
    subst this
    have e1 : getCoord (Max A.getBegin B.getBegin) 0 =
        min (getCoord B.getBegin 0) (getCoord A.getBegin 0) :=
      getCoord_Min _ _ cl 0 (by omega)
    have e2 : getCoord (Min A.getEnd B.getEnd) 0 =
        min (getCoord A.getEnd 0) (getCoord B.getEnd 0) :=
      getCoord_Min _ _ ch 0 (by omega)
    rw [e1, e2]
    have ha := a3 0 (by omega)
    have hb := b3 0 (by omega)
    exact le_min (le_trans (min_le_right _ _) ha) (le_trans (min_le_left _ _) hb)
  refine ⟨by rw [isIntersects_eq, key], ?_, by decide, by decide, by decide, by decide⟩
  rw [intersection_eq A B (by omega), if_pos key]
  exact ⟨_, rfl⟩

theorem isIntersects_line_witness :
    (CompactImpl.ctor [0] [1]).Valid ∧ (CompactImpl.ctor [5] [6]).Valid ∧
      (CompactImpl.ctor [0] [1]).isIntersects (CompactImpl.ctor [5] [6]) true = (SUCCESS, true) :=
  have v1 : (CompactImpl.ctor [0] [1]).Valid :=
    ⟨⟨rfl, rfl⟩, by
      intro i hi
      have hi2 : i < 1 := hi
      interval_cases i
      norm_num [CompactImpl.ctor, CompactImpl.getBegin, CompactImpl.getEnd, getCoord]⟩
  have v2 : (CompactImpl.ctor [5] [6]).Valid :=
    ⟨⟨rfl, rfl⟩, by
      intro i hi
      have hi2 : i < 1 := hi
      interval_cases i
      norm_num [CompactImpl.ctor, CompactImpl.getBegin, CompactImpl.getEnd, getCoord]⟩
  ⟨v1, v2, (isIntersects_line _ _ v1 v2 rfl rfl true).1⟩
/-! ## Norms -/

theorem firstNormLoop_eq_sum (v : Vec) (n : Nat) :
    firstNormLoop v n = ∑ i in Finset.range n, |getCoord v i| := by
  induction n with
  | zero => simp [firstNormLoop]
  | succ n ih => rw [Finset.sum_range_succ, ← ih]; rfl

theorem infNormLoop_succ (v : Vec) (n : Nat) :
    infNormLoop v (n + 1) =
      if |getCoord v n| > infNormLoop v n then |getCoord v n| else infNormLoop v n := rfl

theorem infNormLoop_upper (v : Vec) (n : Nat) :
    ∀ i < n, |getCoord v i| ≤ infNormLoop v n := by
  induction n with
  | zero => intro i hi; omega
  | succ n ih =>
    intro i hi
    rw [infNormLoop_succ]
    by_cases hin : i = n
    · subst hin
      split_ifs with h
      · exact le_refl _
      · exact not_lt.mp h
    · have := ih i (by omega)
      split_ifs with h
      · exact le_trans this (le_of_lt h)
      · exact this

theorem infNormLoop_attained (v : Vec) (n : Nat) (hn : 0 < n) :
    ∃ i < n, infNormLoop v n = |getCoord v i| := by
  induction n with
  | zero => omega
  | succ n ih =>
    rw [infNormLoop_succ]
    by_cases h : |getCoord v n| > infNormLoop v n
    · exact ⟨n, by omega, by rw [if_pos h]⟩
    · rw [if_neg h]
      by_cases hn0 : n = 0
      · subst hn0
        refine ⟨0, by omega, ?_⟩
        have h1 : |getCoord v 0| ≤ getCoord v 0 := not_lt.mp h
        exact le_antisymm (le_abs_self _) h1
      · obtain ⟨i, hi, he⟩ := ih (by omega)
        exact ⟨i, by omega, he⟩

/-- C25: for a vector of dimension at least 1, `infNorm` (the value of
`norm(NORM_INF)`) is the greatest of the `|coord[i]|`: it bounds every one of
them and equals one of them, whatever the sign of the first coordinate; and
`firstNorm` (the value of `norm(NORM_1)`) is the sum of the `|coord[i]|`. -/
theorem norm_spec (v : Vec) (hdim : 1 ≤ getDim v) :
    IsGreatest {x : ℚ | ∃ i < getDim v, x = |getCoord v i|} (infNorm v) ∧
      firstNorm v = ∑ i in Finset.range (getDim v), |getCoord v i| ∧
      firstNorm v = (v.map (fun x => |x|)).sum ∧
      infNorm [-3, 2] = 3 ∧ firstNorm [-3, 2] = 5 := by
  refine ⟨⟨?_, ?_⟩, firstNormLoop_eq_sum v _, ?_, ?_, ?_⟩
  · obtain ⟨i, hi, he⟩ := infNormLoop_attained v (getDim v) (by omega)
    exact ⟨i, hi, he⟩
  · rintro x ⟨i, hi, rfl⟩
    exact infNormLoop_upper v _ i hi
  · unfold firstNorm
    rw [firstNormLoop_eq_sum]
    unfold getDim getCoord
    clear hdim
    induction v using List.reverseRecOn with
    | nil => simp
    | append_singleton l a ih =>
      rw [List.length_append, List.length_singleton, Finset.sum_range_succ, List.map_append,
        List.sum_append, ← ih]
      congr 1
      · apply Finset.sum_congr rfl
        intro i hi
        have hi' : i < l.length := Finset.mem_range.mp hi
        rw [List.getD_append _ _ _ _ hi']
      · simp [List.getD_eq_getElem?_getD]
  · norm_num [infNorm, infNormLoop, getDim, getCoord, abs_neg, Nat.abs_ofNat]
  · norm_num [firstNorm, firstNormLoop, getDim, getCoord, abs_neg, Nat.abs_ofNat]

theorem norm_spec_witness :
    1 ≤ getDim [-3, 2] ∧
      firstNorm [-3, 2] = ∑ i in Finset.range (getDim [-3, 2]), |getCoord [-3, 2] i| :=
  ⟨by decide, (norm_spec [-3, 2] (by decide)).2.1⟩
/-! ## The point set -/

theorem getCoord_subCoords (a b : Vec) (i : Nat) (hi : i < getDim a) :
    getCoord (subCoords a b) i = getCoord a i - getCoord b i := by
  unfold getDim at hi
  unfold subCoords
  conv_lhs => unfold getCoord
  rw [List.getD_eq_getElem _ 0 (by simpa [getDim] using hi)]
  simp [getCoord, List.getD_eq_getElem?_getD]

theorem secondNormLoop_eq_sum (v : Vec) (n : Nat) :
    secondNormLoop v n = ∑ i in Finset.range n, getCoord v i ^ 2 := by
  induction n with
  | zero => simp [secondNormLoop]
  | succ n ih => rw [Finset.sum_range_succ, ← ih, sq]; rfl

/-- The test the code runs on the difference `v - e` is the comparison of the
mathematical norm of the difference with the tolerance. -/
theorem normLess_iff_withinTolerance (norm : NORM) (v e : Vec) (tol : ℚ)
    (hdim : norm = NORM.NORM_INF → 1 ≤ getDim v) :
    normLess norm (subCoords v e) tol = true ↔ withinTolerance norm v e tol := by
  have hd : getDim (subCoords v e) = getDim v := getDim_subCoords v e
  cases norm with
  | NORM_1 =>
    simp only [normLess, withinTolerance, decide_eq_true_eq, firstNorm, firstNormLoop_eq_sum, hd]
    rw [Finset.sum_congr rfl (fun i hi => by
      rw [getCoord_subCoords v e i (Finset.mem_range.mp hi)])]
  | NORM_2 =>
    have hsum : secondNormSquare (subCoords v e) =
        ∑ i in Finset.range (getDim v), (getCoord v i - getCoord e i) ^ 2 := by
      unfold secondNormSquare
      rw [secondNormLoop_eq_sum, hd]
      exact Finset.sum_congr rfl (fun i hi => by
        rw [getCoord_subCoords v e i (Finset.mem_range.mp hi)])
    simp only [normLess, withinTolerance, decide_eq_true_eq, hsum]
    by_cases ht : 0 < tol
    · have ht' : (0 : ℝ) < (tol : ℝ) := by exact_mod_cast ht
      rw [Real.sqrt_lt' ht']
      constructor
      · rintro ⟨_, h⟩
        have h2 : (∑ i in Finset.range (getDim v), (getCoord v i - getCoord e i) ^ 2) < tol ^ 2 := by
          rw [sq]; exact h
        exact_mod_cast h2
      · intro h
        refine ⟨ht, ?_⟩
        have h2 : (∑ i in Finset.range (getDim v), (getCoord v i - getCoord e i) ^ 2) < tol ^ 2 := by
          exact_mod_cast h
        rw [sq] at h2
        exact h2
    · constructor
      · rintro ⟨h, _⟩
        exact absurd h ht
      · intro h
        have h0 := Real.sqrt_nonneg
          (((∑ i in Finset.range (getDim v), (getCoord v i - getCoord e i) ^ 2 : ℚ)) : ℝ)
        have ht' : (tol : ℝ) ≤ 0 := by exact_mod_cast not_lt.mp ht
        linarith
  | NORM_INF =>
    have h1 : 0 < getDim (subCoords v e) := by rw [hd]; exact hdim rfl
    have hset : {x : ℚ | ∃ i < getDim v, x = |getCoord v i - getCoord e i|} =
        {x : ℚ | ∃ i < getDim v, x = |getCoord (subCoords v e) i|} := by
      ext x
      constructor
      · rintro ⟨i, hi, rfl⟩
        exact ⟨i, hi, by rw [getCoord_subCoords v e i hi]⟩
      · rintro ⟨i, hi, rfl⟩
        exact ⟨i, hi, by rw [getCoord_subCoords v e i hi]⟩
    have hgreat : IsGreatest {x : ℚ | ∃ i < getDim v, x = |getCoord (subCoords v e) i|}
        (infNorm (subCoords v e)) := by
      constructor
      · obtain ⟨i, hi, he⟩ := infNormLoop_attained (subCoords v e) _ h1
        exact ⟨i, hd ▸ hi, he⟩
      · rintro x ⟨i, hi, rfl⟩
        exact infNormLoop_upper (subCoords v e) _ i (hd.symm ▸ hi)
    simp only [normLess, withinTolerance, decide_eq_true_eq, hset]
    constructor
    · intro h
      exact ⟨_, hgreat, h⟩
    · rintro ⟨m, hm, hlt⟩
      rw [hgreat.unique hm]
      exact hlt

theorem abs_subCoords_comm (a b : Vec) (h : getDim a = getDim b) (i : Nat) (hi : i < getDim a) :
    |getCoord (subCoords a b) i| = |getCoord (subCoords b a) i| := by
  rw [getCoord_subCoords a b i hi, getCoord_subCoords b a i (h ▸ hi), abs_sub_comm]

theorem secondNormLoop_congr (u w : Vec) (n : Nat)
    (h : ∀ i < n, |getCoord u i| = |getCoord w i|) :
    secondNormLoop u n = secondNormLoop w n := by
  induction n with
  | zero => rfl
  | succ n ih =>
    unfold secondNormLoop
    rw [ih (fun i hi => h i (by omega)), ← abs_mul_abs_self (getCoord u n),
      ← abs_mul_abs_self (getCoord w n), h n (by omega)]

theorem infNorm_congr (u w : Vec) (hd : getDim u = getDim w) (hpos : 0 < getDim u)
    (h : ∀ i < getDim u, |getCoord u i| = |getCoord w i|) : infNorm u = infNorm w := by
  apply le_antisymm
  · obtain ⟨i, hi, he⟩ := infNormLoop_attained u (getDim u) hpos
    unfold infNorm
    rw [he, h i hi]
    exact infNormLoop_upper w _ i (hd ▸ hi)
  · obtain ⟨i, hi, he⟩ := infNormLoop_attained w (getDim w) (hd ▸ hpos)
    unfold infNorm
    rw [he, ← h i (hd ▸ hi)]
    exact infNormLoop_upper u _ i (hd ▸ hi)

theorem normLess_subCoords_comm (norm : NORM) (a b : Vec) (tol : ℚ) (h : getDim a = getDim b) :
    normLess norm (subCoords a b) tol = normLess norm (subCoords b a) tol := by
  have hd : getDim (subCoords a b) = getDim (subCoords b a) := by
    rw [getDim_subCoords, getDim_subCoords, h]
  have habs : ∀ i < getDim (subCoords a b),
      |getCoord (subCoords a b) i| = |getCoord (subCoords b a) i| := by
    intro i hi
    rw [getDim_subCoords] at hi
    exact abs_subCoords_comm a b h i hi
  cases norm with
  | NORM_1 =>
    have : firstNorm (subCoords a b) = firstNorm (subCoords b a) := by
      unfold firstNorm
      rw [firstNormLoop_eq_sum, firstNormLoop_eq_sum, ← hd]
      exact Finset.sum_congr rfl (fun i hi => habs i (Finset.mem_range.mp hi))
    simp only [normLess, this]
  | NORM_2 =>
    have : secondNormSquare (subCoords a b) = secondNormSquare (subCoords b a) := by
      unfold secondNormSquare
      rw [← hd]
      exact secondNormLoop_congr _ _ _ habs
    simp only [normLess, this]
  | NORM_INF =>
    have : infNorm (subCoords a b) = infNorm (subCoords b a) := by
      by_cases hpos : 0 < getDim (subCoords a b)
      · exact infNorm_congr _ _ hd hpos habs
      · have ha : a = [] := by
          rw [getDim_subCoords] at hpos
          exact List.length_eq_zero.mp (by unfold getDim at hpos; omega)
        have hb : b = [] := by
          subst ha
          exact List.length_eq_zero.mp (by unfold getDim at h; simpa using h.symm)
        rw [ha, hb]
    simp only [normLess, this]

theorem insertLoop_iff (v : Vec) (norm : NORM) (tol : ℚ) (l : List Vec)
    (hl : ∀ e ∈ l, getDim e = getDim v) :
    SetImpl.insertLoop v norm tol l = true ↔
      ∃ e ∈ l, normLess norm (subCoords v e) tol = true := by
  induction l with
  | nil => simp [SetImpl.insertLoop]
  | cons e l ih =>
    have he : getDim v = getDim e := (hl e (List.mem_cons_self _ _)).symm
    have ih' := ih (fun x hx => hl x (List.mem_cons_of_mem _ hx))
    unfold SetImpl.insertLoop
    simp only [sub, he, ne_eq, not_true_eq_false, if_false]
    by_cases hn : normLess norm (subCoords v e) tol = true
    · simp [hn]
    · simp [hn, ih']

/-- The invariant of the sets built by `insert`: one dimension, and no two
stored vectors within the tolerance of each other. -/
theorem Built_invariant (norm : NORM) (tol : ℚ) (s : SetImpl) (h : Built norm tol s) :
    (∀ e ∈ s.vectors, UILab.getDim e = s.getDim) ∧
      s.vectors.Pairwise (fun e e' =>
        normLess norm (subCoords e' e) tol = false ∧
          normLess norm (subCoords e e') tol = false) := by
  induction h with
  | empty => exact ⟨by simp, List.Pairwise.nil⟩
  | insert s v _ ih =>
    obtain ⟨hdim, hpw⟩ := ih
    unfold SetImpl.insert
    by_cases hw : (!s.vectors.isEmpty && decide (UILab.getDim v ≠ s.getDim)) = true
    · rw [if_pos hw]
      exact ⟨hdim, hpw⟩
    · rw [if_neg hw]
      by_cases hloop : SetImpl.insertLoop v norm tol s.vectors = true
      · rw [if_pos hloop]
        exact ⟨hdim, hpw⟩
      · rw [if_neg hloop]
        have hv : ∀ e ∈ s.vectors, UILab.getDim e = UILab.getDim v := by
          intro e he
          have hne : s.vectors ≠ [] := List.ne_nil_of_mem he
          have : UILab.getDim v = s.getDim := by
            simpa [hne] using hw
          rw [hdim e he, this]
        constructor
        · intro e he
          show UILab.getDim e = SetImpl.getDim { vectors := s.vectors ++ [v] }
          cases hs : s.vectors with
          | nil =>
            rw [hs] at he
            simp only [List.nil_append, List.mem_singleton] at he
            subst he
            rfl
          | cons x xs =>
            have hx : UILab.getDim x = UILab.getDim v := hv x (by rw [hs]; exact List.mem_cons_self _ _)
            have he' : UILab.getDim e = UILab.getDim v := by
              rw [hs] at he
              rcases List.mem_append.mp he with h1 | h1
              · exact hv e (by rw [hs]; exact h1)
              · rw [List.mem_singleton.mp h1]
            show UILab.getDim e = UILab.getDim x
            rw [he', hx]
        · show (s.vectors ++ [v]).Pairwise _
          rw [List.pairwise_append]
          refine ⟨hpw, List.pairwise_singleton _ _, ?_⟩
          intro e he e' he'
          rw [List.mem_singleton.mp he']
          have hnot : normLess norm (subCoords v e) tol = false := by
            by_contra hc
            exact hloop ((insertLoop_iff v norm tol s.vectors hv).mpr
              ⟨e, he, by simpa using hc⟩)
          exact ⟨hnot, by rw [normLess_subCoords_comm norm e v tol (hv e he)]; exact hnot⟩

/-- C24: on a set whose stored vectors all have the dimension of `v` (at least 1
for `NORM_INF`, whose loop starts from `coords[0]`), `insert v norm tol` returns
multiple-definition exactly when some stored `e` has `norm(v - e) < tol`, the
norm being the sum of the absolute differences, the square root of the sum of
their squares, or the greatest absolute difference; it then leaves the set
unchanged. Otherwise it returns success, appends `v` as the last element and
the size grows by one. Hence in a set built from the empty set by calls of
`insert` with one norm and one tolerance no two stored vectors are within the
tolerance of each other. -/
theorem insert_spec (s : SetImpl) (v : Vec) (norm : NORM) (tol : ℚ)
    (hs : ∀ e ∈ s.vectors, UILab.getDim e = UILab.getDim v)
    (hdim : norm = NORM.NORM_INF → 1 ≤ UILab.getDim v) :
    ((s.insert v norm tol).1 = MULTIPLE_DEFINITION ↔
        ∃ e ∈ s.vectors, withinTolerance norm v e tol) ∧
      ((s.insert v norm tol).1 = MULTIPLE_DEFINITION → (s.insert v norm tol).2 = s) ∧
      ((¬ ∃ e ∈ s.vectors, withinTolerance norm v e tol) →
        (s.insert v norm tol).1 = SUCCESS ∧
          (s.insert v norm tol).2.vectors = s.vectors ++ [v] ∧
          (s.insert v norm tol).2.getSize = s.getSize + 1) ∧
      ∀ t : SetImpl, Built norm tol t →
        (norm = NORM.NORM_INF → ∀ e ∈ t.vectors, 1 ≤ UILab.getDim e) →
        t.vectors.Pairwise (fun e e' =>
          ¬ withinTolerance norm e' e tol ∧ ¬ withinTolerance norm e e' tol) := by
  have hw : (!s.vectors.isEmpty && decide (UILab.getDim v ≠ s.getDim)) = false := by
    cases hv : s.vectors with
    | nil => simp
    | cons x xs =>
      have : UILab.getDim x = UILab.getDim v := hs x (by rw [hv]; exact List.mem_cons_self _ _)
      simp [SetImpl.getDim, hv, this]
  have hiff : SetImpl.insertLoop v norm tol s.vectors = true ↔
      ∃ e ∈ s.vectors, withinTolerance norm v e tol := by
    rw [insertLoop_iff v norm tol s.vectors hs]
    constructor
    · rintro ⟨e, he, h⟩
      exact ⟨e, he, (normLess_iff_withinTolerance norm v e tol hdim).mp h⟩
    · rintro ⟨e, he, h⟩
      exact ⟨e, he, (normLess_iff_withinTolerance norm v e tol hdim).mpr h⟩
  have heq : s.insert v norm tol =
      if SetImpl.insertLoop v norm tol s.vectors = true then (MULTIPLE_DEFINITION, s)
      else (SUCCESS, { vectors := s.vectors ++ [v] }) := by
    unfold SetImpl.insert
    rw [hw]
    simp
  refine ⟨?_, ?_, ?_, ?_⟩
  · rw [heq, ← hiff]
    by_cases h : SetImpl.insertLoop v norm tol s.vectors = true
    · simp [h]
    · simp [h]
  · rw [heq]
    by_cases h : SetImpl.insertLoop v norm tol s.vectors = true
    · simp [h]
    · simp [h]
  · intro hno
    have h : ¬ SetImpl.insertLoop v norm tol s.vectors = true := fun hc => hno (hiff.mp hc)
    rw [heq, if_neg h]
    exact ⟨rfl, rfl, by simp [SetImpl.getSize]⟩
  · intro t ht hpos
    refine List.Pairwise.imp_of_mem ?_ (Built_invariant norm tol t ht).2
    intro e e' he he' hpair
    constructor
    · intro hc
      have := (normLess_iff_withinTolerance norm e' e tol (fun hn => hpos hn e' he')).mpr hc
      rw [hpair.1] at this
      cases this
    · intro hc
      have := (normLess_iff_withinTolerance norm e e' tol (fun hn => hpos hn e he)).mpr hc
      rw [hpair.2] at this
      cases this

theorem insert_spec_witness :
    (∀ e ∈ (SetImpl.mk [[1, 2]]).vectors, UILab.getDim e = UILab.getDim [1, 201 / 100]) ∧
      (∃ e ∈ (SetImpl.mk [[1, 2]]).vectors,
        withinTolerance NORM.NORM_1 [1, 201 / 100] e (1 / 10)) ∧
      ((SetImpl.mk [[1, 2]]).insert [1, 201 / 100] NORM.NORM_1 (1 / 10)).1 =
        MULTIPLE_DEFINITION ∧
      ((SetImpl.mk [[1, 2]]).insert [1, 201 / 100] NORM.NORM_1 (1 / 10)).2 =
        SetImpl.mk [[1, 2]] :=
  have h : ∀ e ∈ (SetImpl.mk [[1, 2]]).vectors,
      UILab.getDim e = UILab.getDim [1, 201 / 100] := by
    intro e he
    have : e = [1, 2] := by simpa using he
    rw [this]
    rfl
  have hdup : ∃ e ∈ (SetImpl.mk [[1, 2]]).vectors,
      withinTolerance NORM.NORM_1 [1, 201 / 100] e (1 / 10) := by
    refine ⟨[1, 2], by simp, ?_⟩
    norm_num [withinTolerance, Finset.sum_range_succ, getCoord, getDim, abs_div, abs_inv,
      abs_neg, Nat.abs_ofNat, abs_one]
  have hm := (insert_spec (SetImpl.mk [[1, 2]]) [1, 201 / 100] NORM.NORM_1 (1 / 10) h
    (fun hn => by cases hn)).1.mpr hdup
  ⟨h, hdup, hm,
    (insert_spec (SetImpl.mk [[1, 2]]) [1, 201 / 100] NORM.NORM_1 (1 / 10) h
      (fun hn => by cases hn)).2.1 hm⟩
/-! ## Truncation in doStep -/

theorem truncate_of_lt_one (x : ℚ) (h0 : 0 ≤ x) (h1 : x < 1) : truncate x = 0 := by
  unfold truncate
  rw [if_pos h0, Int.floor_eq_iff]
  constructor <;> norm_num [h0, h1]

theorem getCoordInt_some (v : Vec) (index : Nat) (z : ℤ) (h : getCoordInt v index = some z) :
    index < getDim v ∧ z = truncate (getCoord v index) ∧ INT_MIN ≤ z ∧ z ≤ INT_MAX := by
  unfold getCoordInt at h
  split_ifs at h with hi
  unfold toInt at h
  split_ifs at h with hz
  cases h
  have := hz
  simp only [isInt, decide_eq_true_eq] at this
  exact ⟨hi, rfl, this.1, this.2⟩

/-- For a forward iterator, whenever the test of the scan is defined, an axis
counts as reached exactly when the truncated position equals the truncated high
boundary. -/
theorem reached_forward (it : iterator) (hb : it.isBegin = true) (axis : Nat) (b : Bool)
    (h : it.reached axis = some b) :
    b = decide (truncate (getCoord it.current axis) =
      truncate (getCoord it.compact.getEnd axis)) := by
  unfold iterator.reached at h
  simp only [hb, if_true] at h
  cases hc : getCoordInt it.current axis with
  | none => rw [hc] at h; cases h
  | some curValue =>
    cases he : getCoordInt it.compact.getEnd axis with
    | none => rw [hc, he] at h; cases h
    | some endValue =>
      rw [hc, he] at h
      simp only [Option.some_bind] at h
      unfold intSub at h
      by_cases h1 : isInt (curValue - endValue) = true
      · rw [if_pos h1] at h
        simp only [Option.some_bind] at h
        unfold intAbs at h
        by_cases h2 : isInt |curValue - endValue| = true
        · rw [if_pos h2] at h
          simp only [Option.some_bind, Option.some.injEq] at h
          rw [← h, ← (getCoordInt_some _ _ _ hc).2.1, ← (getCoordInt_some _ _ _ he).2.1]
          exact decide_eq_decide.mpr (by rw [int_abs_lt_TOLERANCE, sub_eq_zero])
        · rw [if_neg h2] at h
          cases h
      · rw [if_neg h1] at h
        cases h

/-- A successful `doStep` of a well-shaped iterator leaves on the active axis
the truncated old coordinate plus (forward) or minus (reverse) the step. -/
theorem doStep_success_active (it next : iterator) (hwf : it.WF)
    (h : it.doStep = Outcome.returned SUCCESS next) :
    ∃ i : Nat, it.scan it.indexes 0 = some i ∧
      getCoord next.getPoint (it.indexes.getD i 0) =
        if it.isBegin then
          (truncate (getCoord it.getPoint (it.indexes.getD i 0)) : ℚ) +
            getCoord it.step (it.indexes.getD i 0)
        else
          (truncate (getCoord it.getPoint (it.indexes.getD i 0)) : ℚ) -
            getCoord it.step (it.indexes.getD i 0) := by
  obtain ⟨i, curValue, hs, _, hc, _, _, hnext⟩ := doStep_returned it next _ h
  obtain ⟨hcur, hval, _, _⟩ := getCoordInt_some _ _ _ hc
  obtain ⟨_, _, h3, _, _⟩ := hwf
  have hcur' : it.indexes.getD i 0 < it.current.length := hcur
  have ha : it.indexes.getD i 0 < it.compact.getDim := by rw [← h3]; exact hcur
  refine ⟨i, hs, ?_⟩
  rw [hnext]
  unfold iterator.getPoint
  dsimp only
  rw [getCoord_copyCoords, if_pos ⟨ha, hcur'⟩, ← hval]
  rcases Bool.eq_false_or_eq_true it.isBegin with hb | hb
  · simp only [hb, if_true]
    rw [getCoord_set, if_pos ⟨rfl, hcur'⟩]
  · simp only [hb, Bool.false_eq_true, if_false]
    rw [getCoord_set, if_pos ⟨rfl, hcur'⟩]

/-- C26 (the code departs from it): `curValue` is an `int` variable, so the
active coordinate is truncated before the step is added. On the compact
`[0]`–`[1]` with step `[1/4]` both the first and the second `doStep` succeed
and leave the position at `1/4`; the second does not reach `1/2`. -/
theorem doStep_truncates_position :
    createCompact [0] [1] = some (CompactImpl.ctor [0] [1]) ∧
      advanceCode 0 ((CompactImpl.ctor [0] [1]).begin [1 / 4]) = some SUCCESS ∧
      (advance 1 ((CompactImpl.ctor [0] [1]).begin [1 / 4])).map iterator.getPoint =
        some [1 / 4] ∧
      advanceCode 1 ((CompactImpl.ctor [0] [1]).begin [1 / 4]) = some SUCCESS ∧
      (advance 2 ((CompactImpl.ctor [0] [1]).begin [1 / 4])).map iterator.getPoint =
        some [1 / 4] ∧
      (advance 2 ((CompactImpl.ctor [0] [1]).begin [1 / 4])).map iterator.getPoint ≠
        some [1 / 2] := by
  have h14 : truncate (1 / 4 : ℚ) = 0 := truncate_of_lt_one _ (by norm_num) (by norm_num)
  have h14' : truncate (4⁻¹ : ℚ) = 0 := truncate_of_lt_one _ (by norm_num) (by norm_num)
  have a0 : advance 0 ((CompactImpl.ctor [0] [1]).begin [1 / 4]) =
      some (iterator.mk (CompactImpl.ctor [0] [1]) [1 / 4] [0] [0] [0] true) := by
    norm_num [advance, CompactImpl.begin, iterator.ctor, CompactImpl.clone, CompactImpl.ctor,
      CompactImpl.getBegin, CompactImpl.getDim, List.range_succ, getDim]
  have d0 : iterator.doStep (iterator.mk (CompactImpl.ctor [0] [1]) [1 / 4] [0] [0] [0] true) =
      Outcome.returned SUCCESS
        (iterator.mk (CompactImpl.ctor [0] [1]) [1 / 4] [1 / 4] [0] [0] true) := by
    norm_num [CompactImpl.ctor, CompactImpl.getBegin, CompactImpl.getEnd, CompactImpl.getDim,
      iterator.doStep, iterator.scan, iterator.reached, getDim, getCoord, TOLERANCE,
      CompactImpl.isContains, setCoord, iterator.copyCoords, getCoordInt, toInt, isInt,
      INT_MIN, INT_MAX, intSub, intAbs]
  have d1 : iterator.doStep
        (iterator.mk (CompactImpl.ctor [0] [1]) [1 / 4] [1 / 4] [0] [0] true) =
      Outcome.returned SUCCESS
        (iterator.mk (CompactImpl.ctor [0] [1]) [1 / 4] [1 / 4] [0] [0] true) := by
    norm_num [CompactImpl.ctor, CompactImpl.getBegin, CompactImpl.getEnd, CompactImpl.getDim,
      iterator.doStep, iterator.scan, iterator.reached, getDim, getCoord, TOLERANCE,
      CompactImpl.isContains, setCoord, iterator.copyCoords, getCoordInt, toInt, isInt,
      INT_MIN, INT_MAX, intSub, intAbs, h14, h14']
  have s1 := advance_step 0 _ _ _ _ a0 d0
  have s2 := advance_step 1 _ _ _ _ s1.1 d1
  refine ⟨by decide, s1.2, ?_, s2.2, ?_, ?_⟩
  · rw [s1.1]; rfl
  · rw [s2.1]; rfl
  · rw [s2.1]
    norm_num [iterator.getPoint]

/-- C27 (the code departs from it): the scan of `doStep` compares `int`
variables, so an axis counts as reached when the truncated position equals the
truncated boundary. On the compact `[1/2]`–`[7/10]` the iterator of `begin`
stands at `1/2`, at distance `1/5` from the high corner, and its first
`doStep` already counts the axis as reached and takes the exhausted branch
(the one that frees the clone before `return OUT_OF_BOUNDS`). -/
theorem doStep_truncates_boundary :
    createCompact [1 / 2] [7 / 10] = some (CompactImpl.ctor [1 / 2] [7 / 10]) ∧
      ((CompactImpl.ctor [1 / 2] [7 / 10]).begin [1 / 10]).getPoint = [1 / 2] ∧
      ¬ (|getCoord ((CompactImpl.ctor [1 / 2] [7 / 10]).begin [1 / 10]).getPoint 0 -
          getCoord (CompactImpl.ctor [1 / 2] [7 / 10]).getEnd 0| < TOLERANCE) ∧
      ((CompactImpl.ctor [1 / 2] [7 / 10]).begin [1 / 10]).reached 0 = some true ∧
      ((CompactImpl.ctor [1 / 2] [7 / 10]).begin [1 / 10]).scan
          ((CompactImpl.ctor [1 / 2] [7 / 10]).begin [1 / 10]).indexes 0 =
        some ((CompactImpl.ctor [1 / 2] [7 / 10]).begin [1 / 10]).indexes.length ∧
      ((CompactImpl.ctor [1 / 2] [7 / 10]).begin [1 / 10]).doStep = Outcome.undefined := by
  have h12 : truncate (1 / 2 : ℚ) = 0 := truncate_of_lt_one _ (by norm_num) (by norm_num)
  have h12' : truncate (2⁻¹ : ℚ) = 0 := truncate_of_lt_one _ (by norm_num) (by norm_num)
  have h710 : truncate (7 / 10 : ℚ) = 0 := truncate_of_lt_one _ (by norm_num) (by norm_num)
  refine ⟨?_, rfl, ?_, ?_, ?_, ?_⟩
  · norm_num [createCompact, CheckData, Less, getDim, getCoord, List.range_succ]
  · norm_num [CompactImpl.begin, iterator.ctor, CompactImpl.ctor, CompactImpl.getBegin,
      CompactImpl.getEnd, iterator.getPoint, getCoord, TOLERANCE, abs_div, abs_neg,
      Nat.abs_ofNat, abs_one]
  all_goals
    norm_num [CompactImpl.begin, iterator.ctor, CompactImpl.clone,
      CompactImpl.ctor, CompactImpl.getBegin, CompactImpl.getEnd, CompactImpl.getDim,
      List.range_succ, iterator.doStep, iterator.scan, iterator.reached, getDim, getCoord,
      TOLERANCE, getCoordInt, toInt, isInt, INT_MIN, INT_MAX, intSub, intAbs, h12, h12', h710]

/-! ## A failed setDirection -/

theorem cround_half : cround (1 / 2 : ℚ) = 1 := by
  unfold cround
  rw [if_pos (by norm_num), Int.floor_eq_iff]
  constructor <;> norm_num

/-- C28 (the code departs from it): the integer test of `setDirection` runs
inside the loop that overwrites `dir`. On a fresh 2-dimensional iterator
`setDirection [1, 1/2]` returns wrong-argument after entry 0 was stored: `dir`
is `[1,1]` instead of `[0,1]`, the order is unchanged, and a later
`setDirection [1,0]`, accepted by a fresh iterator, returns wrong-argument. -/
theorem setDirection_not_atomic :
    createCompact [0, 0] [4, 4] = some (CompactImpl.ctor [0, 0] [4, 4]) ∧
      ((CompactImpl.ctor [0, 0] [4, 4]).begin [2, 2]).dir = [0, 1] ∧
      (((CompactImpl.ctor [0, 0] [4, 4]).begin [2, 2]).setDirection [1, 1 / 2]).code =
        some WRONG_ARGUMENT ∧
      (((CompactImpl.ctor [0, 0] [4, 4]).begin [2, 2]).setDirection [1, 1 / 2]).state.map
          iterator.dir = some [1, 1] ∧
      (((CompactImpl.ctor [0, 0] [4, 4]).begin [2, 2]).setDirection [1, 1 / 2]).state.map
          iterator.indexes = some ((CompactImpl.ctor [0, 0] [4, 4]).begin [2, 2]).indexes ∧
      (((CompactImpl.ctor [0, 0] [4, 4]).begin [2, 2]).setDirection [1, 0]).code =
        some SUCCESS ∧
      (((CompactImpl.ctor [0, 0] [4, 4]).begin [2, 2]).setDirection [1, 1 / 2]).state.bind
          (fun s => (s.setDirection [1, 0]).code) = some WRONG_ARGUMENT := by
  have hc := cround_half
  have hc' : cround (2⁻¹ : ℚ) = 1 := by simpa using cround_half
  refine ⟨by decide, ?_, ?_, ?_, ?_, ?_, ?_⟩ <;>
    norm_num [iterator.setDirection, iterator.ValidationDirection, iterator.copyDirection,
      iterator.Order, iterator.dirKey, CompactImpl.begin, iterator.ctor, CompactImpl.clone,
      CompactImpl.ctor, CompactImpl.getBegin, CompactImpl.getEnd, CompactImpl.getDim,
      List.range_succ, getDim, getCoord, setCoord, TOLERANCE, iterator.keyLE, hc, hc',
      abs_div, abs_neg, Nat.abs_ofNat, abs_one, abs_inv, toSizeT, Outcome.code,
      Outcome.state]
end UILab
